import Mathlib

/-!
# Plinth: replication core

A shallow embedding of the parts of `mrmushfiq/plinth` that the replication
core rests on, followed by the properties proved about them.

* `internal/quorum/quorum.go`: `Config`, `Result`, `ValidateConfig`.
* `internal/checksum/checksum.go`: `Calculate`, `Verify`.
* `internal/placement/placement.go`: `Node`, and `GetNodes` behind the
  interface `Controller`.
* `cmd/repair/main.go`: `getEnv`, `getEnvDuration` and the loop of `main`.
* `internal/metadata/metadata.go`: `Object`, and the two methods of the
  interface `Service` that the repair cycle uses.
* `internal/api/middleware.go`: `RequestIDMiddleware`, `generateRequestID`.
* `internal/api/router.go`: the handler wrappers `handleBucketGet`,
  `handleObjectPut`, `handleObjectDelete`, `handleObjectPost`.

Go's `int` is embedded as `Int` (only comparisons are performed on the
configuration fields, so no wrap-around is involved), and Go's `error` as
`Option String`: `none` is `nil`, `some msg` is `errors.New(msg)`.

The standard library functions that this code calls and whose result decides
a property (`time.ParseDuration`, `time.NewTicker`, `Time.Format` at the one
layout used, `textproto.CanonicalMIMEHeaderKey`) are embedded after their own
source; `uint64` arithmetic is on `Nat` with the bounds the source checks,
and the two `float64` operations of `time.ParseDuration` are rounded exactly.

Where the repository declares an interface and has no implementation of it
(the quorum writer, the placement controller, the metadata service, the body
of the repair cycle), the definition follows the design document and says so.
-/

set_option autoImplicit false

namespace Plinth

/-- Go's `error` interface restricted to `errors.New` values: `none` is `nil`. -/
abbrev GoError := Option String

namespace quorum

/-- The sentinel `ErrInsufficientNodes`. -/
def ErrInsufficientNodes : String := "insufficient nodes available for quorum"

/-- The sentinel `ErrWriteQuorumNotMet`. -/
def ErrWriteQuorumNotMet : String := "write quorum not met"

/-- The sentinel `ErrReadQuorumNotMet`. -/
def ErrReadQuorumNotMet : String := "read quorum not met"

/-- The struct `Config`: the quorum configuration. -/
structure Config where
  ReplicationFactor : Int
  WriteQuorum : Int
  ReadQuorum : Int
  deriving Repr, DecidableEq

/-- The function `ValidateConfig`: three guarded early returns, then `nil`. -/
def ValidateConfig (cfg : Config) : GoError :=
  if cfg.ReplicationFactor < 1 then
    some "replication factor must be at least 1"
  else if cfg.WriteQuorum < 1 ∨ cfg.WriteQuorum > cfg.ReplicationFactor then
    some "write quorum must be between 1 and replication factor"
  else if cfg.ReadQuorum < 1 ∨ cfg.ReadQuorum > cfg.ReplicationFactor then
    some "read quorum must be between 1 and replication factor"
  else
    none

/-- The struct `Result`: the outcome of one per-node operation. `Data` is an
`interface{}` in the source; the only payloads the core stores there are byte
slices, so it is an optional byte sequence (`none` is `nil`). -/
structure Result where
  NodeID : String
  Success : Bool
  Error : GoError
  Data : Option (List (Fin 256))
  deriving Repr, DecidableEq

end quorum

namespace checksum

/-- One byte. -/
abbrev Byte := Fin 256

/-- A Go `string` holding arbitrary bytes (a digest is not valid UTF-8 in
general): its sequence of bytes, so that `len` is `List.length`. -/
abbrev GoString := List Byte

/-- An `io.Reader`, given by what its successive `Read` calls deliver: the
chunks of bytes handed out, then the terminating condition, `none` for
`io.EOF` and `some e` for any other error. -/
structure Reader where
  chunks : List (List Byte)
  err : GoError
  deriving Repr, DecidableEq

/-- All bytes a reader delivers before it terminates. -/
def Reader.bytes (r : Reader) : List Byte := r.chunks.flatten

/-- The streaming state `xxhash.Digest` of the third-party package
`github.com/cespare/xxhash/v2`: the bytes written so far. The 64-bit sum of a
byte sequence is the package's business and is a parameter `sum64` of
everything below. -/
structure Digest where
  written : List Byte
  deriving Repr, DecidableEq

/-- The constructor `xxhash.New`. -/
def Digest.New : Digest := ⟨[]⟩

/-- The method `Digest.Write`: adds bytes to the running hash; it never fails. -/
def Digest.Write (d : Digest) (b : List Byte) : Digest := ⟨d.written ++ b⟩

/-- The method `Digest.Sum64`: a `uint64`. -/
def Digest.Sum64 (sum64 : List Byte → Nat) (d : Digest) : Nat :=
  sum64 d.written % 2 ^ 64

/-- The conversion `byte(x)` of a `uint64`: the low eight bits. -/
def toByte (x : Nat) : Byte := ⟨x % 256, Nat.mod_lt x (by decide)⟩

/-- Modelled from the spec: the method `Digest.Sum` of the third-party
package, whose source is not under `src/`. The spec calls the digest
fixed-width; the package's sum is 64 bits wide (`hash.Hash64`, `Size` 8), and
`Sum` appends its eight bytes to `b`, most significant byte first. -/
def Digest.Sum (sum64 : List Byte → Nat) (d : Digest) (b : List Byte) : List Byte :=
  let s := d.Sum64 sum64
  b ++ [toByte (s >>> 56), toByte (s >>> 48), toByte (s >>> 40), toByte (s >>> 32),
        toByte (s >>> 24), toByte (s >>> 16), toByte (s >>> 8), toByte s]

/-- The loop of `io.Copy(dst, src)` with a `Digest` as destination: every
chunk read is written to the digest, until the reader terminates. Returns the
digest, the number of bytes written and the error (`nil` on `io.EOF`). -/
def ioCopy (dst : Digest) (src : Reader) : Digest × Nat × GoError :=
  go dst 0 src.chunks
where
  /-- One iteration per `Read`. -/
  go (dst : Digest) (written : Nat) : List (List Byte) → Digest × Nat × GoError
    | [] => (dst, written, src.err)
    | c :: cs => go (dst.Write c) (written + c.length) cs

/-- The method `xxHashCalculator.Calculate`. -/
def Calculate (sum64 : List Byte → Nat) (r : Reader) : GoString × GoError :=
  let h := Digest.New
  match ioCopy h r with
  | (_, _, some err) => ([], some err)
  | (h, _, none) => (h.Sum sum64 [], none)

/-- The method `xxHashCalculator.Verify`. -/
def Verify (sum64 : List Byte → Nat) (r : Reader) (expected : GoString) : Bool × GoError :=
  match Calculate sum64 r with
  | (_, some err) => (false, some err)
  | (actual, none) => (decide (actual = expected), none)

end checksum

namespace quorum

/-- Modelled from the spec: the per-node step of `Writer.Write`, one put on
the node `id` recorded as a `Result` with the node's identifier, success for
an acknowledged put and the error otherwise. -/
def resultOf (put : String → List (Fin 256) → GoError) (data : List (Fin 256))
    (id : String) : Result :=
  match put id data with
  | none => { NodeID := id, Success := true, Error := none, Data := none }
  | some e => { NodeID := id, Success := false, Error := some e, Data := none }

/-- Modelled from the spec: the implementation of `Writer.Write`, of which
`quorum.go` declares only the interface method. One put per node identifier
(the node transport is the parameter `put`, answering `nil` for an
acknowledged write and an error otherwise, a timeout included), one `Result`
per node collected in the order of `nodeIDs`, and overall success exactly
when the number of successful results reaches `WriteQuorum`; otherwise
`ErrWriteQuorumNotMet`, with the full result set either way. The puts run
concurrently in the design; only their outcomes enter here. -/
def Write (cfg : Config) (put : String → List (Fin 256) → GoError)
    (nodeIDs : List String) (data : List (Fin 256)) : List Result × GoError :=
  let results := nodeIDs.map (resultOf put data)
  let successes := (results.filter fun r => r.Success).length
  if (successes : Int) ≥ cfg.WriteQuorum then (results, none)
  else (results, some ErrWriteQuorumNotMet)

/-- A node transport for examples: the put on `n3` times out, every other
put is acknowledged. -/
def samplePut : String → List (Fin 256) → GoError :=
  fun id _ => if id = "n3" then some "timeout" else none

end quorum

namespace placement

/-- The struct `Node`: a storage node. `Status` is one of `healthy`,
`degraded`, `offline` (and `removed` after deregistration). -/
structure Node where
  ID : String
  Address : String
  Tier : String
  Capacity : Int
  Used : Int
  Status : String
  deriving Repr, DecidableEq

/-- Modelled from the spec: the node registry owned by the placement
controller, an indexed collection keyed by node identifier, so identifiers
are unique. -/
structure Registry where
  nodes : List Node
  unique : (nodes.map Node.ID).Nodup

/-- Modelled from the spec: the healthy nodes of the registry. -/
def Registry.healthy (reg : Registry) : List Node :=
  reg.nodes.filter fun n => n.Status = "healthy"

/-- Modelled from the spec: the degraded nodes of the registry. -/
def Registry.degraded (reg : Registry) : List Node :=
  reg.nodes.filter fun n => n.Status = "degraded"

/-- Modelled from the spec: the nodes eligible for placement, healthy or
degraded; offline and removed nodes never are. -/
def Registry.eligible (reg : Registry) : List Node :=
  reg.nodes.filter fun n => n.Status = "healthy" ∨ n.Status = "degraded"

/-- Modelled from the spec: the stable hashing scheme over the object key,
nodes ordered by decreasing weight of the pair (object key, node identifier)
under the hash `score` (highest-random-weight ranking). -/
def rank (score : String → String → Nat) (objectKey : String) (ns : List Node) : List Node :=
  ns.insertionSort fun a b => score objectKey a.ID ≥ score objectKey b.ID

/-- Modelled from the spec: the implementation of `Controller.GetNodes`, of
which `placement.go` declares only the interface method. The replica set is
the first `count` nodes of the healthy pool ranked by a stable hash of the
object key (the parameter `score`), followed, when the healthy pool is too
small, by the degraded pool ranked the same way; with fewer than `count`
eligible nodes the call fails with `ErrInsufficientNodes`. `count` is Go's
`int`, as the interface declares it; the spec does not say what a negative
count selects, and nothing is selected here. -/
def GetNodes (score : String → String → Nat) (reg : Registry) (objectKey : String)
    (count : Int) : List Node × GoError :=
  if ((reg.healthy.length + reg.degraded.length : Nat) : Int) < count then
    ([], some quorum.ErrInsufficientNodes)
  else
    ((rank score objectKey reg.healthy ++ rank score objectKey reg.degraded).take count.toNat,
      none)

/-- A registry of three nodes: `n1` healthy, `n2` degraded, `n3` offline. -/
def sampleRegistry : Registry where
  nodes := [⟨"n1", "10.0.0.1:50051", "hot", 100, 10, "healthy"⟩,
            ⟨"n2", "10.0.0.2:50051", "hot", 100, 20, "degraded"⟩,
            ⟨"n3", "10.0.0.3:50051", "warm", 100, 30, "offline"⟩]
  unique := by decide

end placement

namespace repair

/-- A `time.Duration`: a count of nanoseconds. -/
abbrev Duration := Int

/-- The constant `time.Second`. -/
def Second : Duration := 1000000000

/-- The process environment: the value of each variable that is set. -/
abbrev Env := String → Option String

/-- The call `os.Getenv`: the value of the variable, empty when it is unset. -/
def Getenv (env : Env) (key : String) : String := (env key).getD ""

/-- The function `getEnv`. -/
def getEnv (env : Env) (key defaultValue : String) : String :=
  let value := Getenv env key
  if value ≠ "" then value else defaultValue

/-- The function `getEnvDuration`. The standard library's
`time.ParseDuration` is the parameter `ParseDuration`: `some d` when it
returns `d` with a nil error, `none` when it returns an error. -/
def getEnvDuration (ParseDuration : String → Option Duration) (env : Env) (key : String)
    (defaultValue : Duration) : Duration :=
  let value := Getenv env key
  if value ≠ "" then
    match ParseDuration value with
    | some d => d
    | none => defaultValue
  else defaultValue

/-- The interval `repairInterval` that `main` reads. -/
def repairInterval (ParseDuration : String → Option Duration) (env : Env) : Duration :=
  getEnvDuration ParseDuration env "REPAIR_INTERVAL" (60 * Second)

/-- The interval `scrubInterval` that `main` reads. -/
def scrubInterval (ParseDuration : String → Option Duration) (env : Env) : Duration :=
  getEnvDuration ParseDuration env "SCRUB_INTERVAL" (300 * Second)

/-- The case of the `select` in the loop of `main` that an iteration takes:
`ctx.Done()`, `repairTicker.C` or `scrubTicker.C`. -/
inductive Event where
  | shutdown
  | repairTick
  | scrubTick
  deriving Repr, DecidableEq

/-- Something the worker does that is visible outside it: a line handed to
`log.Println`, a query to the metadata service for under-replicated objects
(with the objects it found), a placement update, or a write to data nodes. -/
inductive Effect where
  | log (line : String)
  | findUnderReplicatedObjects (replicationFactor : Int) (found : List String)
  | updateObjectPlacement (objectID : String) (nodeIDs : List String)
  | write (nodeIDs : List String) (data : List (Fin 256))
  deriving Repr, DecidableEq

/-- The state of the loop of `main`: whether `main` has returned, and the
effects so far. -/
structure Worker where
  returned : Bool
  trace : List Effect
  deriving Repr, DecidableEq

/-- The worker when the loop is entered. -/
def Worker.start : Worker := ⟨false, [.log "Repair worker started"]⟩

/-- The body of the case `<-repairTicker.C`: one log line (the repair logic
itself is a TODO in the source, which initialises neither the metadata
service nor the data-node clients). -/
def repairCycle : List Effect := [.log "Running repair cycle..."]

/-- The body of the case `<-scrubTicker.C`: one log line. -/
def scrubCycle : List Effect := [.log "Running scrub cycle..."]

/-- One iteration of the loop, taking the given case of the `select`. -/
def step (w : Worker) : Event → Worker
  | .shutdown => { returned := true, trace := w.trace ++ [.log "Repair worker stopped"] }
  | .repairTick => { w with trace := w.trace ++ repairCycle }
  | .scrubTick => { w with trace := w.trace ++ scrubCycle }

/-- The loop of `main` over the cases its successive iterations take: it
iterates until `main` returns, after which nothing more is executed. -/
def run (w : Worker) : List Event → Worker
  | [] => w
  | e :: es => if w.returned then w else run (step w e) es

/-- The number of deficient objects that the queries in a trace found. -/
def deficientFound : List Effect → Nat
  | [] => 0
  | .findUnderReplicatedObjects _ found :: t => found.length + deficientFound t
  | _ :: t => deficientFound t

/-- The number of writes in a trace: placement updates and data-node writes. -/
def writes : List Effect → Nat
  | [] => 0
  | .updateObjectPlacement _ _ :: t => 1 + writes t
  | .write _ _ :: t => 1 + writes t
  | _ :: t => writes t

/-- The number of repair and scrub cycles started in a trace. -/
def cyclesStarted (t : List Effect) : Nat :=
  t.count (.log "Running repair cycle...") + t.count (.log "Running scrub cycle...")

/-- A sample environment: only `REPAIR_INTERVAL` is set, to `30s`. -/
def sampleEnv : Env := fun k => if k = "REPAIR_INTERVAL" then some "30s" else none

/-- A stand-in for `time.ParseDuration` in examples: it agrees with it on
`30s` and `10s` and parses nothing else. -/
def sampleParse : String → Option Duration := fun v =>
  if v = "30s" then some (30 * Second) else if v = "10s" then some (10 * Second) else none

end repair

namespace time

/-- A reading of the wall clock, as `time.Now()` returns it: the date and
time of day in the local zone, with the nanoseconds within the second. -/
structure Time where
  year : Nat
  month : Nat
  day : Nat
  hour : Nat
  minute : Nat
  second : Nat
  nanosecond : Nat
  deriving Repr, DecidableEq

/-- The standard library's `appendInt` on a non-negative number: its decimal
digits, padded with zeros on the left to at least `width`. -/
def appendInt (x width : Nat) : String :=
  let s := toString x
  "".pushn '0' (width - s.length) ++ s

/-- The method `Time.Format` at the layout `20060102150405.000000`: year,
month, day, hour, minute and second as zero-padded numbers, a dot, and the
nine-digit nanoseconds cut to their first six digits. -/
def Time.Format (t : Time) : String :=
  appendInt t.year 4 ++ appendInt t.month 2 ++ appendInt t.day 2 ++ appendInt t.hour 2 ++
    appendInt t.minute 2 ++ appendInt t.second 2 ++ "." ++
    (appendInt t.nanosecond 9).dropRight 3

/-- The rounding of a non-negative real to a `float64`: the nearest number
with a 53-bit significand, ties to even. The exponent range is not limited;
in `ParseDuration` a value outside the normal range only occurs in a product
below one, which the conversion to `uint64` turns into zero either way. -/
def roundFloat64 (x : ℚ) : ℚ :=
  if x ≤ 0 then 0
  else
    let e : ℤ := Int.log 2 x - 52
    let m : ℚ := x / (2 : ℚ) ^ e
    let fl : ℤ := ⌊m⌋
    let r : ℚ := m - fl
    let n : ℤ :=
      if r < 1 / 2 then fl
      else if r > 1 / 2 then fl + 1
      else if fl % 2 = 0 then fl
      else fl + 1
    n * (2 : ℚ) ^ e

/-- The table `unitMap` of the standard library: nanoseconds per unit. -/
def unitMap (u : String) : Option Nat :=
  if u = "ns" then some 1
  else if u = "us" then some 1000
  else if u = "\u00b5s" then some 1000
  else if u = "\u03bcs" then some 1000
  else if u = "ms" then some 1000000
  else if u = "s" then some 1000000000
  else if u = "m" then some 60000000000
  else if u = "h" then some 3600000000000
  else none

/-- The test `'0' <= c && c <= '9'`. -/
def isDigit (c : Char) : Bool := '0' ≤ c && c ≤ '9'

/-- The standard library's `leadingInt`: consumes the leading digits of `s`;
`none` is its overflow error. -/
def leadingInt (s : List Char) : Option (Nat × List Char) :=
  go 0 s
where
  /-- One iteration per character. -/
  go (x : Nat) : List Char → Option (Nat × List Char)
    | [] => some (x, [])
    | c :: cs =>
      if !isDigit c then some (x, c :: cs)
      else if x > 2 ^ 63 / 10 then none
      else
        let x := x * 10 + (c.toNat - '0'.toNat)
        if x > 2 ^ 63 then none else go x cs

/-- The standard library's `leadingFraction`: consumes the leading digits of
`s` as a fraction `x / scale`, ignoring the digits that would overflow `x`;
`scale` is a `float64`. -/
def leadingFraction (s : List Char) : Nat × ℚ × List Char :=
  go 0 1 false s
where
  /-- One iteration per character. -/
  go (x : Nat) (scale : ℚ) (overflow : Bool) : List Char → Nat × ℚ × List Char
    | [] => (x, scale, [])
    | c :: cs =>
      if !isDigit c then (x, scale, c :: cs)
      else if overflow then go x scale overflow cs
      else if x > (2 ^ 63 - 1) / 10 then go x scale true cs
      else
        let y := x * 10 + (c.toNat - '0'.toNat)
        if y > 2 ^ 63 then go x scale true cs
        else go y (roundFloat64 (scale * 10)) overflow cs

/-- The part `(\.[0-9]*)?` of a group in `time.ParseDuration`: after a dot,
the fraction that `leadingFraction` reads, with its scale, the rest of the
string and whether any digit was consumed (`post`); without a dot, no
fraction. -/
def fractionPart (s : List Char) : Nat × ℚ × List Char × Bool :=
  match s with
  | '.' :: t =>
    let (f, scale, rest) := leadingFraction t
    (f, scale, rest, t.length != rest.length)
  | _ => (0, 1, s, false)

/-- One iteration of the loop `for s != ""` of `time.ParseDuration` on a
non-empty `s`: it consumes one group of digits, optional fraction and unit,
and returns the nanoseconds `v` of the group with the rest of the string;
`none` is an error return. -/
def parseGroup (s : List Char) : Option (Nat × List Char) :=
  match s with
  | [] => none
  | c :: _ =>
    if !(c = '.' || isDigit c) then none
    else
      match leadingInt s with
      | none => none
      | some (v, s₁) =>
        let pre := s.length != s₁.length
        let (f, scale, s₂, post) := fractionPart s₁
        if !pre && !post then none
        else
          let (u, s₃) := s₂.span fun c => !(c = '.' || isDigit c)
          if u.isEmpty then none
          else
            match unitMap (String.mk u) with
            | none => none
            | some unit =>
              if v > 2 ^ 63 / unit then none
              else
                let v := v * unit
                let v :=
                  if f > 0 then
                    v + (roundFloat64 (roundFloat64 f * roundFloat64 (unit / scale))).floor.toNat
                  else v
                if v > 2 ^ 63 then none else some (v, s₃)

/-- The loop `for s != ""` of `time.ParseDuration`: each iteration adds the
nanoseconds of one group to the `uint64` total `d`; `none` is an error
return. Every iteration consumes at least one character, so a fuel above the
length of `s` is never used up. -/
def parseGroups : Nat → Nat → List Char → Option Nat
  | 0, _, _ => none
  | fuel + 1, d, s =>
    match s with
    | [] => some d
    | _ :: _ =>
      match parseGroup s with
      | none => none
      | some (v, rest) =>
        let d := (d + v) % 2 ^ 64
        if d > 2 ^ 63 then none else parseGroups fuel d rest

/-- The standard library's `time.ParseDuration`, which is not part of the
repository, after its source: an optional sign, then the lone `0` or a
sequence of groups. `some d` when it returns `d` with a nil error, `none`
when it returns an error. -/
def ParseDuration (s : String) : Option repair.Duration :=
  let orig := s.toList
  let (neg, s) :=
    match orig with
    | '-' :: t => (true, t)
    | '+' :: t => (false, t)
    | _ => (false, orig)
  if s = ['0'] then some 0
  else if s = [] then none
  else
    match parseGroups (s.length + 1) 0 s with
    | none => none
    | some d =>
      if neg then some (-(d : Int))
      else if d > 2 ^ 63 - 1 then none
      else some (d : Int)

/-- The standard library's `time.NewTicker`: it panics on an interval that is
not positive (the error is the panic message) and otherwise returns a ticker
of that interval. -/
def NewTicker (d : repair.Duration) : Except String repair.Duration :=
  if d ≤ 0 then .error "non-positive interval for NewTicker" else .ok d

end time

namespace repair

/-- The two calls of `time.NewTicker` in `main`, in their order: the tickers
of the repair and of the scrub cycle, or the panic that ends the start-up. -/
def startTickers (ParseDuration : String → Option Duration) (env : Env) :
    Except String (Duration × Duration) :=
  match time.NewTicker (repairInterval ParseDuration env) with
  | .error p => .error p
  | .ok repairTicker =>
    match time.NewTicker (scrubInterval ParseDuration env) with
    | .error p => .error p
    | .ok scrubTicker => .ok (repairTicker, scrubTicker)

/-- An environment with `REPAIR_INTERVAL=-1s` and nothing else set. -/
def negativeEnv : Env := fun k => if k = "REPAIR_INTERVAL" then some "-1s" else none

/-- An environment with `SCRUB_INTERVAL=0` and nothing else set. -/
def zeroEnv : Env := fun k => if k = "SCRUB_INTERVAL" then some "0" else none

end repair

namespace api

/-- The part of a `gin.Context` that the middleware and the handler wrappers
read and write: the request (method, path, header lines as received, parsed
query parameters in their order of appearance), the keys set on the context,
and the header lines of the response. -/
structure Context where
  method : String
  path : String
  header : List (String × String)
  query : List (String × String)
  keys : List (String × String)
  responseHeader : List (String × String)
  deriving Repr, DecidableEq

/-- The first value stored under a key, and the empty string when there is
none: what `url.Values.Get` and a lookup in the keys of the context return. -/
def firstValue (kvs : List (String × String)) (key : String) : String :=
  (kvs.lookup key).getD ""

/-- The map assignment `m[key] = value`. -/
def setValue (kvs : List (String × String)) (key value : String) : List (String × String) :=
  (key, value) :: kvs.filter fun kv => kv.1 ≠ key

/-- The standard library's `validHeaderFieldByte`: the characters of an HTTP
token, that is the ASCII letters and digits and the fifteen punctuation
marks that RFC 7230 allows (given by their codes). -/
def validHeaderFieldByte (c : Char) : Bool :=
  c.isAlphanum ||
    [33, 35, 36, 37, 38, 39, 42, 43, 45, 46, 94, 95, 96, 124, 126].contains c.toNat

/-- The rewriting loop of the standard library's `canonicalMIMEHeaderKey`:
the first letter and every letter after a dash in upper case, the other
letters in lower case. -/
def canonicalLetters (upper : Bool) : List Char → List Char
  | [] => []
  | c :: cs =>
    let c := if upper && c.isLower then c.toUpper
      else if !upper && c.isUpper then c.toLower
      else c
    c :: canonicalLetters (c = '-') cs

/-- The standard library's `textproto.CanonicalMIMEHeaderKey`: a name made
of token characters only is put in canonical form; any other string is
returned unchanged. -/
def CanonicalMIMEHeaderKey (s : String) : String :=
  if s.toList.all validHeaderFieldByte then String.mk (canonicalLetters true s.toList)
  else s

/-- The method `http.Header.Get` on the header lines of a message: the value
of the first line whose name has the canonical form of `key`, and the empty
string when there is none. -/
def headerGet (h : List (String × String)) (key : String) : String :=
  match h.find? fun kv => CanonicalMIMEHeaderKey kv.1 = CanonicalMIMEHeaderKey key with
  | some kv => kv.2
  | none => ""

/-- The method `http.Header.Set`: the lines of that name are replaced by one
line, stored under the canonical form of `key`. -/
def headerSet (h : List (String × String)) (key value : String) : List (String × String) :=
  (CanonicalMIMEHeaderKey key, value) ::
    h.filter fun kv => CanonicalMIMEHeaderKey kv.1 ≠ CanonicalMIMEHeaderKey key

/-- The method `Context.GetHeader`: `c.Request.Header.Get(key)`. -/
def Context.GetHeader (c : Context) (key : String) : String := headerGet c.header key

/-- The method `Context.Query`: the first value of the query parameter, and
the empty string when the parameter is absent. -/
def Context.Query (c : Context) (key : String) : String := firstValue c.query key

/-- The method `Context.Set`. -/
def Context.Set (c : Context) (key value : String) : Context :=
  { c with keys := setValue c.keys key value }

/-- The call `c.Writer.Header().Set(key, value)`. -/
def Context.SetResponseHeader (c : Context) (key value : String) : Context :=
  { c with responseHeader := headerSet c.responseHeader key value }

/-- The function `generateRequestID`, with the reading of `time.Now()` as an
input. -/
def generateRequestID (now : time.Time) : String := "req-" ++ now.Format

/-- The handler that `RequestIDMiddleware` returns, with the reading of the
clock as an input and the rest of the handler chain (`c.Next()`) as `next`. -/
def RequestIDMiddleware (now : time.Time) (next : Context → Context) (c : Context) : Context :=
  let requestID := c.GetHeader "X-Request-ID"
  let requestID := if requestID = "" then generateRequestID now else requestID
  let c := c.Set "request_id" requestID
  let c := c.SetResponseHeader "X-Request-ID" requestID
  next c

/-- What a handler wrapper does with a request: it invokes one method of the
gateway on the context, or aborts with a status and a JSON body. -/
inductive Call where
  | ListMultipartUploads
  | ListObjects
  | UploadPart
  | PutObject
  | AbortMultipartUpload
  | DeleteObject
  | InitiateMultipartUpload
  | CompleteMultipartUpload
  | AbortWithStatusJSON (code : Nat) (body : List (String × String))
  deriving Repr, DecidableEq

/-- The constant `http.StatusBadRequest`. -/
def StatusBadRequest : Nat := 400

/-- The handler that `handleBucketGet` returns: the calls it makes, in order. -/
def handleBucketGet (c : Context) : List Call :=
  if c.Query "uploads" ≠ "" then [.ListMultipartUploads]
  else [.ListObjects]

/-- The handler that `handleObjectPut` returns. -/
def handleObjectPut (c : Context) : List Call :=
  if c.Query "uploadId" ≠ "" then [.UploadPart]
  else [.PutObject]

/-- The handler that `handleObjectDelete` returns. -/
def handleObjectDelete (c : Context) : List Call :=
  if c.Query "uploadId" ≠ "" then [.AbortMultipartUpload]
  else [.DeleteObject]

/-- The handler that `handleObjectPost` returns. -/
def handleObjectPost (c : Context) : List Call :=
  if c.Query "uploads" ≠ "" then [.InitiateMultipartUpload]
  else if c.Query "uploadId" ≠ "" then [.CompleteMultipartUpload]
  else [.AbortWithStatusJSON StatusBadRequest [("error", "Invalid POST operation")]]

/-- The request `GET /bucket1?uploads`: the parameter `uploads` is present
and has the empty value. -/
def listUploadsRequest : Context :=
  { method := "GET", path := "/bucket1", header := [], query := [("uploads", "")],
    keys := [], responseHeader := [] }

/-- The request `GET /bucket1/a`, without an `X-Request-ID` header. -/
def requestA : Context :=
  { method := "GET", path := "/bucket1/a", header := [("Accept", "*/*")], query := [],
    keys := [], responseHeader := [] }

/-- The request `GET /bucket1/b`, without an `X-Request-ID` header. -/
def requestB : Context :=
  { method := "GET", path := "/bucket1/b", header := [("Accept", "*/*")], query := [],
    keys := [], responseHeader := [] }

/-- The request `POST /bucket1/key1?uploads=1&uploadId=abc`. -/
def postBothRequest : Context :=
  { method := "POST", path := "/bucket1/key1", header := [],
    query := [("uploads", "1"), ("uploadId", "abc")], keys := [], responseHeader := [] }

/-- The request `POST /bucket1/key1?uploadId=abc`. -/
def postCompleteRequest : Context :=
  { method := "POST", path := "/bucket1/key1", header := [],
    query := [("uploadId", "abc")], keys := [], responseHeader := [] }

/-- The request `POST /bucket1/key1`. -/
def postPlainRequest : Context :=
  { method := "POST", path := "/bucket1/key1", header := [], query := [],
    keys := [], responseHeader := [] }

end api

namespace placement

/-- Modelled from the spec: the registry without the nodes of the given
identifiers, from which the repair cycle asks for fresh nodes "excluding
current holders". -/
def Registry.excluding (reg : Registry) (ids : List String) : Registry where
  nodes := reg.nodes.filter fun n => n.ID ∉ ids
  unique := List.Nodup.sublist ((List.filter_sublist _).map _) reg.unique

/-- A registry of three nodes, all healthy. -/
def healthyRegistry : Registry where
  nodes := [⟨"n1", "10.0.0.1:50051", "hot", 100, 10, "healthy"⟩,
            ⟨"n2", "10.0.0.2:50051", "hot", 100, 20, "healthy"⟩,
            ⟨"n3", "10.0.0.3:50051", "warm", 100, 30, "healthy"⟩]
  unique := by decide

/-- A registry of three nodes: `n1` and `n2` healthy, `n3` offline. -/
def twoHealthyRegistry : Registry where
  nodes := [⟨"n1", "10.0.0.1:50051", "hot", 100, 10, "healthy"⟩,
            ⟨"n2", "10.0.0.2:50051", "hot", 100, 20, "healthy"⟩,
            ⟨"n3", "10.0.0.3:50051", "warm", 100, 30, "offline"⟩]
  unique := by decide

end placement

namespace metadata

/-- The struct `Object`: an object in the metadata store. The two maps are
lists of pairs, the two timestamps counts of nanoseconds, and `State` is one
of `pending`, `committed`, `tombstoned`. -/
structure Object where
  ID : String
  BucketName : String
  ObjectKey : String
  VersionID : String
  IsLatest : Bool
  IsDeleteMarker : Bool
  SizeBytes : Int
  ETag : String
  ContentType : String
  Placement : List String
  State : String
  Metadata : List (String × String)
  Tags : List (String × String)
  CreatedAt : Int
  UpdatedAt : Int
  deriving Repr, DecidableEq

/-- Modelled from the spec: the content of the metadata store behind the
interface `Service`, as far as the repair cycle uses it: the object records. -/
abbrev Store := List Object

/-- Modelled from the spec: the replicas of an object "on currently healthy
nodes": the entries of its placement that name a healthy node of the
registry. -/
def liveHolders (reg : placement.Registry) (o : Object) : List String :=
  o.Placement.filter fun id => id ∈ reg.healthy.map placement.Node.ID

/-- Modelled from the spec: the live (healthy-node) placement count. -/
def liveCount (reg : placement.Registry) (o : Object) : Nat :=
  (liveHolders reg o).length

/-- Modelled from the spec: the implementation of
`Service.FindUnderReplicatedObjects`, of which `metadata.go` declares only
the interface method: "every object whose live (healthy-node) placement count
is below `replicationFactor`". -/
def FindUnderReplicatedObjects (reg : placement.Registry) (store : Store)
    (replicationFactor : Int) : List Object :=
  store.filter fun o => (liveCount reg o : Int) < replicationFactor

/-- Modelled from the spec: the implementation of
`Service.UpdateObjectPlacement`, of which `metadata.go` declares only the
interface method: the record of that identifier gets the given placement. -/
def UpdateObjectPlacement (store : Store) (objectID : String) (nodeIDs : List String) :
    Store :=
  store.map fun o => if o.ID = objectID then { o with Placement := nodeIDs } else o

/-- The object `bucket1/key1` of the spec's scenario with the given placement. -/
def sampleObject (placement : List String) : Object :=
  { ID := "o1", BucketName := "bucket1", ObjectKey := "key1", VersionID := "v1",
    IsLatest := true, IsDeleteMarker := false, SizeBytes := 5, ETag := "etag1",
    ContentType := "text/plain", Placement := placement, State := "committed",
    Metadata := [], Tags := [], CreatedAt := 0, UpdatedAt := 0 }

end metadata

namespace repair

/-- Modelled from the spec: what the repair cycle drives and does not change
itself: the node registry, the configured replication factor, the hash of the
placement controller, and the quorum coordinator behind the interfaces
`Reader` and `Writer` of `quorum.go`, whose answers depend on the network and
are parameters. -/
structure Cluster where
  registry : placement.Registry
  replicationFactor : Int
  score : String → String → Nat
  read : List String → String → List (Fin 256) × List quorum.Result × GoError
  write : List String → List (Fin 256) → List quorum.Result × GoError

/-- The key under which the nodes store an object: bucket and object key. -/
def objectKeyOf (o : metadata.Object) : String := o.BucketName ++ "/" ++ o.ObjectKey

/-- Modelled from the spec: `deficit = RF − healthyReplicaCount`. -/
def deficit (cl : Cluster) (o : metadata.Object) : Int :=
  cl.replicationFactor - metadata.liveCount cl.registry o

/-- Modelled from the spec: the `deficit` fresh nodes requested from the
placement controller, "excluding current holders". -/
def freshNodes (cl : Cluster) (o : metadata.Object) : List placement.Node × GoError :=
  placement.GetNodes cl.score (cl.registry.excluding o.Placement) (objectKeyOf o)
    (deficit cl o)

/-- Modelled from the spec: the placement after a successful repair, the
identifiers of the fresh nodes appended. -/
def repairedPlacement (cl : Cluster) (o : metadata.Object) : List String :=
  o.Placement ++ (freshNodes cl o).1.map placement.Node.ID

/-- Modelled from the spec: the repair of one deficient object, the body of
the repair cycle that is a TODO in `main.go`: read the payload from the
healthy replicas, request the fresh nodes, write the payload to them and, on
success, update the placement. A failed step leaves the metadata as it is.
Returns the metadata store and the writes made. -/
def repairObject (cl : Cluster) (store : metadata.Store) (o : metadata.Object) :
    metadata.Store × List Effect :=
  let payload := cl.read (metadata.liveHolders cl.registry o) (objectKeyOf o)
  match payload.2.2 with
  | some _ => (store, [])
  | none =>
    match (freshNodes cl o).2 with
    | some _ => (store, [])
    | none =>
      let ids := (freshNodes cl o).1.map placement.Node.ID
      match (cl.write ids payload.1).2 with
      | some _ => (store, [.write ids payload.1])
      | none =>
        (metadata.UpdateObjectPlacement store o.ID (repairedPlacement cl o),
          [.write ids payload.1, .updateObjectPlacement o.ID (repairedPlacement cl o)])

/-- Modelled from the spec: one run of the repair cycle: query the metadata
store for the under-replicated objects, then repair each of them in turn.
Returns the metadata store after the run and the effects of the run. -/
def runRepairCycle (cl : Cluster) (store : metadata.Store) : metadata.Store × List Effect :=
  let found := metadata.FindUnderReplicatedObjects cl.registry store cl.replicationFactor
  found.foldl
    (fun acc o => ((repairObject cl acc.1 o).1, acc.2 ++ (repairObject cl acc.1 o).2))
    (store, [.findUnderReplicatedObjects cl.replicationFactor (found.map metadata.Object.ID)])

/-- A quorum coordinator for examples: every read returns the payload
`data1` and every write succeeds. -/
def reliableCluster (reg : placement.Registry) : Cluster :=
  { registry := reg, replicationFactor := 3, score := fun k i => k.length + i.length,
    read := fun _ _ => ([100, 97, 116, 97, 49], [], none),
    write := fun _ _ => ([], none) }

end repair

/-! ## Properties of `ValidateConfig` -/

namespace quorum

/-- C1: a configuration with `ReplicationFactor < 1`, or with `WriteQuorum` or
`ReadQuorum` outside `[1, ReplicationFactor]`, is rejected: `ValidateConfig`
returns a non-nil error. -/
theorem validateConfig_rejects_out_of_range (cfg : Config)
    (h : cfg.ReplicationFactor < 1 ∨ cfg.WriteQuorum < 1 ∨
      cfg.WriteQuorum > cfg.ReplicationFactor ∨ cfg.ReadQuorum < 1 ∨
      cfg.ReadQuorum > cfg.ReplicationFactor) :
    ValidateConfig cfg ≠ none := by
  unfold ValidateConfig
  split_ifs with h₁ h₂ h₃
  · simp
  · simp
  · simp
  · omega

/-- Witness for C1: replication factor 3 with write quorum 4 is rejected. -/
theorem validateConfig_rejects_out_of_range_witness :
    ValidateConfig ⟨3, 4, 2⟩ ≠ none :=
  validateConfig_rejects_out_of_range ⟨3, 4, 2⟩ (by decide)

/-- Both directions of acceptance: `ValidateConfig` answers `nil` exactly
when none of its three guards fires. -/
theorem validateConfig_eq_none_iff (cfg : Config) :
    ValidateConfig cfg = none ↔
      (cfg.ReplicationFactor ≥ 1 ∧
        (1 ≤ cfg.WriteQuorum ∧ cfg.WriteQuorum ≤ cfg.ReplicationFactor) ∧
        (1 ≤ cfg.ReadQuorum ∧ cfg.ReadQuorum ≤ cfg.ReplicationFactor)) := by
  unfold ValidateConfig
  split_ifs with h₁ h₂ h₃
  · simp; omega
  · simp; omega
  · simp; omega
  · simp; omega

/-- C2: `ValidateConfig` returns `nil` exactly on the valid configurations,
those with `ReplicationFactor ≥ 1`, `1 ≤ WriteQuorum ≤ ReplicationFactor` and
`1 ≤ ReadQuorum ≤ ReplicationFactor`, for all integer field values. -/
theorem validateConfig_nil_iff (cfg : Config) :
    ValidateConfig cfg = none ↔
      (cfg.ReplicationFactor ≥ 1 ∧
        (1 ≤ cfg.WriteQuorum ∧ cfg.WriteQuorum ≤ cfg.ReplicationFactor) ∧
        (1 ≤ cfg.ReadQuorum ∧ cfg.ReadQuorum ≤ cfg.ReplicationFactor)) :=
  validateConfig_eq_none_iff cfg

/-- C3: `ValidateConfig` does not enforce `WriteQuorum + ReadQuorum >
ReplicationFactor`: the configuration RF=3, WQ=1, RQ=1 has
`WriteQuorum + ReadQuorum ≤ ReplicationFactor` and is accepted, so acceptance
does not imply the strict-consistency condition, and every configuration
within the three individual bounds is accepted, with no condition on
`WriteQuorum + ReadQuorum`. -/
theorem validateConfig_ignores_quorum_sum :
    ((⟨3, 1, 1⟩ : Config).WriteQuorum + (⟨3, 1, 1⟩ : Config).ReadQuorum
        ≤ (⟨3, 1, 1⟩ : Config).ReplicationFactor ∧
      ValidateConfig ⟨3, 1, 1⟩ = none) ∧
    (¬ ∀ cfg : Config, ValidateConfig cfg = none →
      cfg.WriteQuorum + cfg.ReadQuorum > cfg.ReplicationFactor) ∧
    ∀ cfg : Config, cfg.ReplicationFactor ≥ 1 →
      (1 ≤ cfg.WriteQuorum ∧ cfg.WriteQuorum ≤ cfg.ReplicationFactor) →
      (1 ≤ cfg.ReadQuorum ∧ cfg.ReadQuorum ≤ cfg.ReplicationFactor) →
      ValidateConfig cfg = none := by
  refine ⟨⟨by decide, by decide⟩, ?_, ?_⟩
  · intro h
    exact absurd (h ⟨3, 1, 1⟩ (by decide)) (by decide)
  · intro cfg h₁ h₂ h₃
    exact (validateConfig_eq_none_iff cfg).mpr ⟨h₁, h₂, h₃⟩

/-- Witness for C3: RF=3, WQ=2, RQ=2 (sum above RF) and RF=3, WQ=1, RQ=2
(sum equal to RF) are accepted alike. -/
theorem validateConfig_ignores_quorum_sum_witness :
    ValidateConfig ⟨3, 2, 2⟩ = none ∧ ValidateConfig ⟨3, 1, 2⟩ = none :=
  ⟨validateConfig_ignores_quorum_sum.2.2 ⟨3, 2, 2⟩ (by decide) (by decide) (by decide),
   validateConfig_ignores_quorum_sum.2.2 ⟨3, 1, 2⟩ (by decide) (by decide) (by decide)⟩

end quorum

/-! ## Properties of the checksum digest -/

namespace checksum

/-- The copy loop hands every chunk to the digest, in order, and ends with
the reader's own terminating condition. -/
theorem ioCopy_go_eq (src : Reader) (cs : List (List Byte)) (dst : Digest) (n : Nat) :
    ioCopy.go src dst n cs =
      (⟨dst.written ++ cs.flatten⟩, n + (cs.map List.length).sum, src.err) := by
  induction cs generalizing dst n with
  | nil => simp [ioCopy.go]
  | cons c cs ih =>
    simp [ioCopy.go, ih, Digest.Write, List.append_assoc, Nat.add_assoc]

/-- What `Calculate` returns on a reader that ends in `io.EOF`: the eight sum
bytes of everything read, and a nil error. -/
theorem calculate_of_eof (sum64 : List Byte → Nat) (r : Reader) (h : r.err = none) :
    Calculate sum64 r = (Digest.Sum sum64 ⟨r.bytes⟩ [], none) := by
  simp [Calculate, ioCopy, ioCopy_go_eq, h, Digest.New, Reader.bytes]

/-- What `Calculate` returns on a reader that fails: the empty string and the
reader's error. -/
theorem calculate_of_error (sum64 : List Byte → Nat) (r : Reader) (e : String)
    (h : r.err = some e) : Calculate sum64 r = ([], some e) := by
  simp [Calculate, ioCopy, ioCopy_go_eq, h, Digest.New]

/-- C4: on a reader that raises no error, `Calculate` returns a digest with a
nil error, `Verify` answers `(true, nil)` exactly for that digest and
`(false, nil)` for every other string, verifying the digest that calculation
produced succeeds, and two such readers delivering the same bytes (however
chunked) get the same digest. -/
theorem verify_iff_calculate (sum64 : List Byte → Nat) (r r' : Reader) (e : GoString)
    (h : r.err = none) (h' : r'.err = none) :
    (Calculate sum64 r).2 = none ∧
    (Verify sum64 r e = (true, none) ↔ e = (Calculate sum64 r).1) ∧
    (e ≠ (Calculate sum64 r).1 → Verify sum64 r e = (false, none)) ∧
    Verify sum64 r (Calculate sum64 r).1 = (true, none) ∧
    (r.bytes = r'.bytes → Calculate sum64 r = Calculate sum64 r') := by
  have hc := calculate_of_eof sum64 r h
  have hc' := calculate_of_eof sum64 r' h'
  refine ⟨by rw [hc], ?_, ?_, ?_, ?_⟩
  · simp only [Verify, hc, Prod.mk.injEq, decide_eq_true_eq, and_true]
    exact eq_comm
  · intro hne
    simp only [Verify, hc, Prod.mk.injEq, decide_eq_false_iff_not, and_true]
    rw [hc] at hne
    exact fun heq => hne heq.symm
  · simp [Verify, hc]
  · intro hb
    rw [hc, hc', hb]

/-- Witness for C4: the bytes 1, 2, 3 delivered in one chunk and in two,
under a sample sum function. -/
theorem verify_iff_calculate_witness :
    Verify (fun bs => (bs.map Fin.val).sum) ⟨[[1, 2, 3]], none⟩
        (Calculate (fun bs => (bs.map Fin.val).sum) ⟨[[1, 2, 3]], none⟩).1 = (true, none) ∧
      Calculate (fun bs => (bs.map Fin.val).sum) ⟨[[1, 2, 3]], none⟩ =
        Calculate (fun bs => (bs.map Fin.val).sum) ⟨[[1], [2, 3]], none⟩ :=
  have w := verify_iff_calculate (fun bs => (bs.map Fin.val).sum)
    ⟨[[1, 2, 3]], none⟩ ⟨[[1], [2, 3]], none⟩ [] rfl rfl
  ⟨w.2.2.2.1, w.2.2.2.2 (by decide)⟩

/-- C5: the digest has a fixed size: on every reader that raises no error,
whatever the number of bytes read (none included), `Calculate` returns a nil
error and a string of exactly 8 bytes, the big-endian bytes of the 64-bit
sum. -/
theorem calculate_length_eq_eight (sum64 : List Byte → Nat) (r : Reader)
    (h : r.err = none) :
    (Calculate sum64 r).2 = none ∧ (Calculate sum64 r).1.length = 8 ∧
      (((Calculate sum64 r).1.map Fin.val).foldl (fun acc b => acc * 256 + b) 0
        = sum64 r.bytes % 2 ^ 64) := by
  rw [calculate_of_eof sum64 r h]
  refine ⟨rfl, rfl, ?_⟩
  simp only [Digest.Sum, Digest.Sum64, toByte, List.nil_append, List.map_cons, List.map_nil,
    List.foldl_cons, List.foldl_nil, Nat.shiftRight_eq_div_pow]
  have hlt : sum64 r.bytes % 2 ^ 64 < 2 ^ 64 := Nat.mod_lt _ (by decide)
  omega

/-- Witness for C5: the empty stream and a three-byte stream both get eight
bytes. -/
theorem calculate_length_eq_eight_witness :
    (Calculate (fun bs => (bs.map Fin.val).sum) ⟨[], none⟩).1.length = 8 ∧
      (Calculate (fun bs => (bs.map Fin.val).sum) ⟨[[1, 2], [3]], none⟩).1.length = 8 :=
  ⟨(calculate_length_eq_eight _ ⟨[], none⟩ rfl).2.1,
   (calculate_length_eq_eight _ ⟨[[1, 2], [3]], none⟩ rfl).2.1⟩

end checksum

/-! ## Properties of the quorum write -/

namespace quorum

/-- The result set of `Write` does not depend on the quorum decision. -/
theorem write_results (cfg : Config) (put : String → List (Fin 256) → GoError)
    (nodeIDs : List String) (data : List (Fin 256)) :
    (Write cfg put nodeIDs data).1 = nodeIDs.map (resultOf put data) := by
  unfold Write
  simp only
  split_ifs <;> rfl

/-- Each recorded result carries the identifier of its node, and succeeds
exactly when the put on that node was acknowledged. -/
theorem resultOf_spec (put : String → List (Fin 256) → GoError) (data : List (Fin 256))
    (id : String) :
    (resultOf put data id).NodeID = id ∧
      ((resultOf put data id).Success = true ↔ put id data = none) ∧
      (resultOf put data id).Error = put id data := by
  unfold resultOf
  cases h : put id data <;> simp

/-- C6: for every list of node identifiers and every payload, `Write` returns
one `Result` per node (the i-th for the i-th identifier), reports overall
success exactly when the number of results with `Success = true` is at least
`WriteQuorum`, and otherwise fails with `ErrWriteQuorumNotMet`; the result
set is the full one in both cases. -/
theorem write_success_iff_quorum (cfg : Config) (put : String → List (Fin 256) → GoError)
    (nodeIDs : List String) (data : List (Fin 256)) :
    (Write cfg put nodeIDs data).1.length = nodeIDs.length ∧
    (Write cfg put nodeIDs data).1.map Result.NodeID = nodeIDs ∧
    (∀ r ∈ (Write cfg put nodeIDs data).1, (r.Success = true ↔ put r.NodeID data = none)) ∧
    ((Write cfg put nodeIDs data).2 = none ↔
      (((Write cfg put nodeIDs data).1.filter fun r => r.Success).length : Int)
        ≥ cfg.WriteQuorum) ∧
    ((Write cfg put nodeIDs data).2 ≠ none →
      (Write cfg put nodeIDs data).2 = some ErrWriteQuorumNotMet) := by
  have hr := write_results cfg put nodeIDs data
  refine ⟨by simp [hr], ?_, ?_, ?_, ?_⟩
  · rw [hr, List.map_map]
    calc nodeIDs.map (Result.NodeID ∘ resultOf put data)
        = nodeIDs.map id := by
          apply List.map_congr_left
          intro a _
          exact (resultOf_spec put data a).1
      _ = nodeIDs := List.map_id _
  · intro r hmem
    rw [hr, List.mem_map] at hmem
    obtain ⟨a, _, rfl⟩ := hmem
    rw [(resultOf_spec put data a).1]
    exact (resultOf_spec put data a).2.1
  · rw [hr]
    unfold Write
    simp only
    split_ifs with hq
    · simp only [true_iff]
      exact hq
    · simp only [reduceCtorEq, false_iff]
      exact hq
  · unfold Write
    simp only
    split_ifs with hq
    · simp
    · simp

/-- Witness for C6: with WQ=2 a write acknowledged by two of three nodes
succeeds and still lists all three nodes; with WQ=3 the same write fails with
`ErrWriteQuorumNotMet`. -/
theorem write_success_iff_quorum_witness :
    ((Write ⟨3, 2, 2⟩ samplePut ["n1", "n2", "n3"] [1]).2 = none ∧
      (Write ⟨3, 2, 2⟩ samplePut ["n1", "n2", "n3"] [1]).1.map Result.NodeID
        = ["n1", "n2", "n3"]) ∧
    (Write ⟨3, 3, 2⟩ samplePut ["n1", "n2", "n3"] [1]).2 = some ErrWriteQuorumNotMet :=
  ⟨⟨(write_success_iff_quorum ⟨3, 2, 2⟩ samplePut ["n1", "n2", "n3"] [1]).2.2.2.1.mpr
      (by decide),
    (write_success_iff_quorum ⟨3, 2, 2⟩ samplePut ["n1", "n2", "n3"] [1]).2.1⟩,
   (write_success_iff_quorum ⟨3, 3, 2⟩ samplePut ["n1", "n2", "n3"] [1]).2.2.2.2
      (by decide)⟩

end quorum

/-! ## Properties of replica placement -/

namespace placement

/-- Ranking reorders a pool and neither adds nor drops a node. -/
theorem rank_perm (score : String → String → Nat) (objectKey : String) (ns : List Node) :
    (rank score objectKey ns).Perm ns :=
  List.perm_insertionSort _ ns

/-- The eligible nodes are the healthy ones together with the degraded ones. -/
theorem length_eligible (reg : Registry) :
    reg.eligible.length = reg.healthy.length + reg.degraded.length := by
  unfold Registry.eligible Registry.healthy Registry.degraded
  induction reg.nodes with
  | nil => rfl
  | cons n ns ih =>
    simp only [Bool.decide_or] at ih ⊢
    by_cases hh : n.Status = "healthy"
    · have hd : ¬ n.Status = "degraded" := by rw [hh]; decide
      simp [List.filter_cons, hh, ih]
      omega
    · by_cases hd : n.Status = "degraded"
      · simp [List.filter_cons, hd, ih]
        omega
      · simp [List.filter_cons, hh, hd, ih]

/-- The candidate pool of `GetNodes`, healthy nodes first, is a
rearrangement of part of the registry: its nodes are registered and eligible,
and no node occurs twice. -/
theorem pool_spec (score : String → String → Nat) (reg : Registry) (objectKey : String) :
    (rank score objectKey reg.healthy ++ rank score objectKey reg.degraded).Nodup ∧
    ∀ n ∈ rank score objectKey reg.healthy ++ rank score objectKey reg.degraded,
      n ∈ reg.nodes ∧ (n.Status = "healthy" ∨ n.Status = "degraded") := by
  have hperm : (rank score objectKey reg.healthy ++ rank score objectKey reg.degraded).Perm
      (reg.healthy ++ reg.degraded) :=
    (rank_perm score objectKey _).append (rank_perm score objectKey _)
  have hnodes : reg.nodes.Nodup := List.Nodup.of_map _ reg.unique
  constructor
  · rw [hperm.nodup_iff]
    refine List.Nodup.append (hnodes.filter _) (hnodes.filter _) ?_
    intro n h₁ h₂
    simp only [Registry.healthy, Registry.degraded, List.mem_filter, decide_eq_true_eq] at h₁ h₂
    have : ("healthy" : String) = "degraded" := h₁.2.symm.trans h₂.2
    exact absurd this (by decide)
  · intro n hn
    have hn' := hperm.subset hn
    simp only [Registry.healthy, Registry.degraded, List.mem_append, List.mem_filter,
      decide_eq_true_eq] at hn'
    rcases hn' with h | h
    · exact ⟨h.1, Or.inl h.2⟩
    · exact ⟨h.1, Or.inr h.2⟩

/-- C7, as the claim states it, fails. With h the number of healthy nodes:
the registry `sampleRegistry` has one healthy node, so h < 2, and yet two
replicas are granted, the second on the degraded node. And for the count -1,
which every h exceeds, no list of -1 nodes is returned. -/
theorem getNodes_healthy_count_not_decisive :
    (sampleRegistry.healthy.length = 1 ∧
      (GetNodes (fun k i => k.length + i.length) sampleRegistry "bucket1/key1" 2).2 = none ∧
      (GetNodes (fun k i => k.length + i.length) sampleRegistry "bucket1/key1" 2).1.map Node.ID
        = ["n1", "n2"]) ∧
    ((-1 : Int) ≤ sampleRegistry.healthy.length ∧
      (GetNodes (fun k i => k.length + i.length) sampleRegistry "bucket1/key1" (-1)).2 = none ∧
      ((GetNodes (fun k i => k.length + i.length) sampleRegistry "bucket1/key1" (-1)).1.length
        : Int) ≠ -1) := by
  refine ⟨⟨by decide, by decide, by decide⟩, ⟨by decide, by decide, by decide⟩⟩

/-- What `GetNodes` returns, by the number of eligible nodes and, for the
quality of the nodes returned, by the number of healthy ones. -/
theorem getNodes_spec (score : String → String → Nat) (reg : Registry)
    (objectKey : String) (count : Int) :
    (0 ≤ count → count ≤ reg.eligible.length →
      (GetNodes score reg objectKey count).2 = none ∧
      ((GetNodes score reg objectKey count).1.length : Int) = count ∧
      ((GetNodes score reg objectKey count).1.map Node.ID).Nodup ∧
      ∀ n ∈ (GetNodes score reg objectKey count).1,
        n ∈ reg.nodes ∧ (n.Status = "healthy" ∨ n.Status = "degraded")) ∧
    ((reg.eligible.length : Int) < count →
      GetNodes score reg objectKey count = ([], some quorum.ErrInsufficientNodes)) ∧
    (0 ≤ count → count ≤ reg.healthy.length →
      ∀ n ∈ (GetNodes score reg objectKey count).1, n.Status = "healthy") := by
  have hlen := length_eligible reg
  obtain ⟨hnd, hmem⟩ := pool_spec score reg objectKey
  refine ⟨?_, ?_, ?_⟩
  · intro h0 hc
    have hge : ¬ ((reg.healthy.length + reg.degraded.length : Nat) : Int) < count := by omega
    have hpool : (rank score objectKey reg.healthy ++ rank score objectKey reg.degraded).length
        = reg.healthy.length + reg.degraded.length := by
      rw [List.length_append, (rank_perm score objectKey _).length_eq,
        (rank_perm score objectKey _).length_eq]
    simp only [GetNodes, if_neg hge]
    refine ⟨trivial, ?_, ?_, ?_⟩
    · rw [List.length_take, hpool]
      omega
    · have htake : ((rank score objectKey reg.healthy ++
          rank score objectKey reg.degraded).take count.toNat).Nodup :=
        hnd.sublist (List.take_sublist _ _)
      refine htake.map_on ?_
      intro x hx y hy hxy
      have hx' := (hmem x (List.mem_of_mem_take hx)).1
      have hy' := (hmem y (List.mem_of_mem_take hy)).1
      exact List.inj_on_of_nodup_map reg.unique hx' hy' hxy
    · intro n hn
      exact hmem n (List.mem_of_mem_take hn)
  · intro hc
    have hlt : ((reg.healthy.length + reg.degraded.length : Nat) : Int) < count := by omega
    simp only [GetNodes, if_pos hlt]
  · intro h0 hc n hn
    have hge : ¬ ((reg.healthy.length + reg.degraded.length : Nat) : Int) < count := by omega
    have hle : count.toNat ≤ (rank score objectKey reg.healthy).length := by
      rw [(rank_perm score objectKey _).length_eq]
      omega
    simp only [GetNodes, if_neg hge, List.take_append_of_le_length hle] at hn
    have hn' := (rank_perm score objectKey _).subset (List.mem_of_mem_take hn)
    simp only [Registry.healthy, List.mem_filter, decide_eq_true_eq] at hn'
    exact hn'.2

/-- C7, amended: for every object key and every count that is not negative,
with h the number of eligible nodes of the registry, healthy or degraded
(offline and removed nodes never count): when h ≥ count, `GetNodes` succeeds
and returns exactly `count` nodes, all registered and eligible, with pairwise
distinct identifiers; when h < count it fails with `ErrInsufficientNodes`.
When the healthy nodes alone number at least `count`, every node returned is
healthy. -/
theorem getNodes_count_distinct (score : String → String → Nat) (reg : Registry)
    (objectKey : String) (count : Int) :
    (0 ≤ count → count ≤ reg.eligible.length →
      (GetNodes score reg objectKey count).2 = none ∧
      ((GetNodes score reg objectKey count).1.length : Int) = count ∧
      ((GetNodes score reg objectKey count).1.map Node.ID).Nodup ∧
      ∀ n ∈ (GetNodes score reg objectKey count).1,
        n ∈ reg.nodes ∧ (n.Status = "healthy" ∨ n.Status = "degraded")) ∧
    ((reg.eligible.length : Int) < count →
      GetNodes score reg objectKey count = ([], some quorum.ErrInsufficientNodes)) ∧
    (0 ≤ count → count ≤ reg.healthy.length →
      ∀ n ∈ (GetNodes score reg objectKey count).1, n.Status = "healthy") :=
  getNodes_spec score reg objectKey count

/-- Witness for C7, amended: a registry of one healthy, one degraded and one
offline node has two eligible nodes; one replica goes to the healthy node,
and three replicas are refused. -/
theorem getNodes_count_distinct_witness :
    ((GetNodes (fun k i => k.length + i.length) sampleRegistry "bucket1/key1" 1).1.map Node.ID
        = ["n1"] ∧
      ((GetNodes (fun k i => k.length + i.length) sampleRegistry "bucket1/key1" 1).1.map
        Node.ID).Nodup) ∧
    GetNodes (fun k i => k.length + i.length) sampleRegistry "bucket1/key1" 3
      = ([], some quorum.ErrInsufficientNodes) :=
  have w := getNodes_count_distinct (fun k i => k.length + i.length) sampleRegistry
    "bucket1/key1"
  ⟨⟨by decide, ((w 1).1 (by decide) (by decide)).2.2.1⟩, (w 3).2.1 (by decide)⟩

end placement

/-! ## Properties of the repair worker -/

namespace repair

/-- Once `main` has returned, no further iteration is executed. -/
theorem run_of_returned (w : Worker) (es : List Event) (hw : w.returned = true) :
    run w es = w := by
  cases es with
  | nil => rfl
  | cons e es => simp [run, hw]

/-- A repair or scrub tick keeps the loop going and starts one cycle. -/
theorem step_tick (w : Worker) (e : Event) (he : e ≠ .shutdown) :
    (step w e).returned = w.returned ∧
      cyclesStarted (step w e).trace = cyclesStarted w.trace + 1 := by
  cases e with
  | shutdown => exact absurd rfl he
  | repairTick =>
    refine ⟨rfl, ?_⟩
    simp only [step, repairCycle, cyclesStarted, List.count_append]
    have h₁ : List.count (Effect.log "Running repair cycle...")
        [Effect.log "Running repair cycle..."] = 1 := by decide
    have h₂ : List.count (Effect.log "Running scrub cycle...")
        [Effect.log "Running repair cycle..."] = 0 := by decide
    rw [h₁, h₂]
    omega
  | scrubTick =>
    refine ⟨rfl, ?_⟩
    simp only [step, scrubCycle, cyclesStarted, List.count_append]
    have h₁ : List.count (Effect.log "Running repair cycle...")
        [Effect.log "Running scrub cycle..."] = 0 := by decide
    have h₂ : List.count (Effect.log "Running scrub cycle...")
        [Effect.log "Running scrub cycle..."] = 1 := by decide
    rw [h₁, h₂]
    omega

/-- While no shutdown case is taken the loop keeps running: it executes one
cycle per tick and then goes on with the remaining events. -/
theorem run_ticks (pre : List Event) (w : Worker) (es : List Event)
    (hw : w.returned = false) (hpre : Event.shutdown ∉ pre) :
    (run w pre).returned = false ∧ run w (pre ++ es) = run (run w pre) es ∧
      cyclesStarted (run w pre).trace = cyclesStarted w.trace + pre.length := by
  induction pre generalizing w with
  | nil => exact ⟨hw, rfl, rfl⟩
  | cons e pre ih =>
    have he : e ≠ .shutdown := fun h => hpre (h ▸ List.mem_cons_self _ _)
    have hpre' : Event.shutdown ∉ pre := fun h => hpre (List.mem_cons_of_mem _ h)
    obtain ⟨hr, hc⟩ := step_tick w e he
    obtain ⟨h₁, h₂, h₃⟩ := ih (step w e) (hr.trans hw) hpre'
    simp only [run, hw, Bool.false_eq_true, if_false, List.cons_append, List.length_cons]
    refine ⟨h₁, h₂, ?_⟩
    rw [h₃, hc]
    omega

/-- The shutdown case ends the loop without starting a cycle. -/
theorem step_shutdown (w : Worker) :
    (step w .shutdown).returned = true ∧
      (step w .shutdown).trace = w.trace ++ [.log "Repair worker stopped"] ∧
      cyclesStarted (step w .shutdown).trace = cyclesStarted w.trace := by
  refine ⟨rfl, rfl, ?_⟩
  simp only [step, cyclesStarted, List.count_append]
  have h₁ : List.count (Effect.log "Running repair cycle...")
      [Effect.log "Repair worker stopped"] = 0 := by decide
  have h₂ : List.count (Effect.log "Running scrub cycle...")
      [Effect.log "Repair worker stopped"] = 0 := by decide
  rw [h₁, h₂]
  rfl

/-- C9: in every run of the loop in which the shutdown case is taken, after
any sequence `pre` of repair and scrub ticks: the loop returns at that
iteration, having logged that it stopped; the cycles started in the whole
run are those of the ticks in `pre`, one each, whatever events `post` come
afterwards; and no later event changes the worker any more. -/
theorem run_stops_at_shutdown (w : Worker) (pre post : List Event)
    (hw : w.returned = false) (hpre : Event.shutdown ∉ pre) :
    run w (pre ++ .shutdown :: post) = step (run w pre) .shutdown ∧
    (run w (pre ++ .shutdown :: post)).returned = true ∧
    (run w (pre ++ .shutdown :: post)).trace =
      (run w pre).trace ++ [.log "Repair worker stopped"] ∧
    cyclesStarted (run w (pre ++ .shutdown :: post)).trace =
      cyclesStarted w.trace + pre.length ∧
    ∀ later : List Event,
      run (run w (pre ++ .shutdown :: post)) later = run w (pre ++ .shutdown :: post) := by
  obtain ⟨h₁, h₂, h₃⟩ := run_ticks pre w (.shutdown :: post) hw hpre
  obtain ⟨s₁, s₂, s₃⟩ := step_shutdown (run w pre)
  have hrun : run w (pre ++ .shutdown :: post) = step (run w pre) .shutdown := by
    rw [h₂]
    simp only [run, h₁, Bool.false_eq_true, if_false]
    exact run_of_returned _ post s₁
  rw [hrun]
  refine ⟨rfl, s₁, s₂, ?_, ?_⟩
  · rw [s₃, h₃]
  · intro later
    exact run_of_returned _ later s₁

/-- Witness for C9: a repair tick, a scrub tick, the shutdown, and two more
ticks that are never served. -/
theorem run_stops_at_shutdown_witness :
    (run Worker.start [.repairTick, .scrubTick, .shutdown, .repairTick, .scrubTick]).trace =
      [.log "Repair worker started", .log "Running repair cycle...",
       .log "Running scrub cycle...", .log "Repair worker stopped"] ∧
    cyclesStarted
      (run Worker.start [.repairTick, .scrubTick, .shutdown, .repairTick, .scrubTick]).trace
      = 2 :=
  have w := run_stops_at_shutdown Worker.start [.repairTick, .scrubTick]
    [.repairTick, .scrubTick] rfl (by decide)
  ⟨w.2.2.1, w.2.2.2.1⟩

/-- The value of `getEnvDuration` in terms of the variable's state. -/
theorem getEnvDuration_eq (ParseDuration : String → Option Duration) (env : Env)
    (key : String) (defaultValue : Duration) :
    getEnvDuration ParseDuration env key defaultValue =
      match env key with
      | none => defaultValue
      | some v => if v = "" then defaultValue else (ParseDuration v).getD defaultValue := by
  unfold getEnvDuration Getenv
  cases hk : env key with
  | none => simp
  | some v =>
    by_cases hv : v = ""
    · simp [hv]
    · cases hp : ParseDuration v <;> simp [hv, hp]

/-- C10: `getEnvDuration key default` is the parsed duration when the
variable is set to a non-empty string that parses, and `default` when the
variable is unset, empty or does not parse; the repair interval is read from
`REPAIR_INTERVAL` with default 60 seconds, the scrub interval from
`SCRUB_INTERVAL` with default 300 seconds, and each depends on the
environment through its own variable only. -/
theorem getEnvDuration_spec (ParseDuration : String → Option Duration) (env : Env)
    (key : String) (defaultValue : Duration) :
    (∀ v d, env key = some v → v ≠ "" → ParseDuration v = some d →
      getEnvDuration ParseDuration env key defaultValue = d) ∧
    (env key = none → getEnvDuration ParseDuration env key defaultValue = defaultValue) ∧
    (env key = some "" → getEnvDuration ParseDuration env key defaultValue = defaultValue) ∧
    (∀ v, env key = some v → ParseDuration v = none →
      getEnvDuration ParseDuration env key defaultValue = defaultValue) ∧
    (repairInterval ParseDuration env =
        getEnvDuration ParseDuration env "REPAIR_INTERVAL" (60 * Second) ∧
      scrubInterval ParseDuration env =
        getEnvDuration ParseDuration env "SCRUB_INTERVAL" (300 * Second) ∧
      60 * Second = 60000000000 ∧ 300 * Second = 300000000000) ∧
    (∀ env' : Env, env' "REPAIR_INTERVAL" = env "REPAIR_INTERVAL" →
      repairInterval ParseDuration env' = repairInterval ParseDuration env) ∧
    (∀ env' : Env, env' "SCRUB_INTERVAL" = env "SCRUB_INTERVAL" →
      scrubInterval ParseDuration env' = scrubInterval ParseDuration env) := by
  refine ⟨?_, ?_, ?_, ?_, ⟨rfl, rfl, by decide, by decide⟩, ?_, ?_⟩
  · intro v d hk hv hp
    simp [getEnvDuration_eq, hk, hv, hp]
  · intro hk
    simp [getEnvDuration_eq, hk]
  · intro hk
    simp [getEnvDuration_eq, hk]
  · intro v hk hp
    simp [getEnvDuration_eq, hk, hp]
  · intro env' h
    simp only [repairInterval, getEnvDuration_eq, h]
  · intro env' h
    simp only [scrubInterval, getEnvDuration_eq, h]

/-- Witness for C10: with only `REPAIR_INTERVAL=30s` set, the repair interval
is the parsed 30 seconds and the scrub interval its default; setting
`SCRUB_INTERVAL` as well leaves the repair interval alone. -/
theorem getEnvDuration_spec_witness :
    repairInterval sampleParse sampleEnv = 30 * Second ∧
    scrubInterval sampleParse sampleEnv = 300 * Second ∧
    repairInterval sampleParse
      (fun k => if k = "SCRUB_INTERVAL" then some "10s" else sampleEnv k)
      = repairInterval sampleParse sampleEnv :=
  have w := getEnvDuration_spec sampleParse sampleEnv
  ⟨(w "REPAIR_INTERVAL" (60 * Second)).1 "30s" (30 * Second) rfl (by decide) rfl,
   (w "SCRUB_INTERVAL" (300 * Second)).2.1 rfl,
   (w "REPAIR_INTERVAL" 0).2.2.2.2.2.1 _ rfl⟩

end repair

/-! ## The order of the checks of `ValidateConfig` -/

namespace quorum

/-- C14: `ValidateConfig` reports the first failing check in the order
replication factor, write quorum, read quorum: with `ReplicationFactor < 1`
the error is the replication-factor one whatever the quorums are; with
`ReplicationFactor ≥ 1` and `WriteQuorum` outside `[1, ReplicationFactor]` it
is the write-quorum one, also when `ReadQuorum` is out of range too; and the
read-quorum error is returned exactly when the first two checks pass and
`ReadQuorum` is out of range. -/
theorem validateConfig_first_failure (cfg : Config) :
    (cfg.ReplicationFactor < 1 →
      ValidateConfig cfg = some "replication factor must be at least 1") ∧
    (cfg.ReplicationFactor ≥ 1 →
      (cfg.WriteQuorum < 1 ∨ cfg.WriteQuorum > cfg.ReplicationFactor) →
      ValidateConfig cfg = some "write quorum must be between 1 and replication factor") ∧
    (ValidateConfig cfg = some "read quorum must be between 1 and replication factor" ↔
      cfg.ReplicationFactor ≥ 1 ∧
      (1 ≤ cfg.WriteQuorum ∧ cfg.WriteQuorum ≤ cfg.ReplicationFactor) ∧
      (cfg.ReadQuorum < 1 ∨ cfg.ReadQuorum > cfg.ReplicationFactor)) := by
  have hrw : ("replication factor must be at least 1" : String) ≠
      "read quorum must be between 1 and replication factor" := by decide
  have hwr : ("write quorum must be between 1 and replication factor" : String) ≠
      "read quorum must be between 1 and replication factor" := by decide
  unfold ValidateConfig
  refine ⟨?_, ?_, ?_⟩
  · intro h
    rw [if_pos h]
  · intro h₁ h₂
    rw [if_neg (by omega), if_pos h₂]
  · split_ifs with h₁ h₂ h₃
    · simp only [Option.some.injEq, hrw, false_iff]
      omega
    · simp only [Option.some.injEq, hwr, false_iff]
      omega
    · simp only [true_iff]
      omega
    · simp only [reduceCtorEq, false_iff]
      omega

/-- Witness for C14: with every field out of range the replication-factor
error wins; with a valid replication factor and both quorums out of range
the write-quorum error wins. -/
theorem validateConfig_first_failure_witness :
    ValidateConfig ⟨0, 5, 5⟩ = some "replication factor must be at least 1" ∧
    ValidateConfig ⟨3, 4, 9⟩ = some "write quorum must be between 1 and replication factor" :=
  ⟨(validateConfig_first_failure ⟨0, 5, 5⟩).1 (by decide),
   (validateConfig_first_failure ⟨3, 4, 9⟩).2.1 (by decide) (by decide)⟩

end quorum

/-! ## Properties of the gateway's middleware and handler wrappers -/

namespace api

/-- A request without an `X-Request-ID` header gets the identifier generated
from the clock reading, under the key `request_id` and in the response
header. -/
theorem requestID_of_missing_header (now : time.Time) (c : Context)
    (h : c.GetHeader "X-Request-ID" = "") :
    firstValue (RequestIDMiddleware now id c).keys "request_id" = generateRequestID now ∧
      headerGet (RequestIDMiddleware now id c).responseHeader "X-Request-ID"
        = generateRequestID now := by
  have hc : CanonicalMIMEHeaderKey (CanonicalMIMEHeaderKey "X-Request-ID") =
      CanonicalMIMEHeaderKey "X-Request-ID" := by decide
  simp [RequestIDMiddleware, h, Context.Set, Context.SetResponseHeader, setValue, firstValue,
    List.lookup, headerGet, headerSet, List.find?, hc]

/-- A request identifier that the client sends is kept, however the client
writes the name of the header. -/
theorem requestID_of_header_any_case :
    firstValue (RequestIDMiddleware ⟨2026, 1, 8, 12, 0, 0, 123⟩ id
      { requestA with header := [("x-request-id", "abc")] }).keys "request_id" = "abc" ∧
    CanonicalMIMEHeaderKey "X-Request-ID" = "X-Request-Id" ∧
    CanonicalMIMEHeaderKey "x-request-id" = "X-Request-Id" ∧
    CanonicalMIMEHeaderKey "x request id" = "x request id" := by
  refine ⟨by decide, by decide, by decide, by decide⟩

/-- C11: the request identifiers are not unique. The two distinct requests
`GET /bucket1/a` and `GET /bucket1/b`, neither carrying an `X-Request-ID`
header, served at two different clock readings within the same microsecond,
are both assigned `req-20260108120000.000000`. -/
theorem requestID_not_unique :
    requestA ≠ requestB ∧
    requestA.GetHeader "X-Request-ID" = "" ∧ requestB.GetHeader "X-Request-ID" = "" ∧
    (⟨2026, 1, 8, 12, 0, 0, 123⟩ : time.Time) ≠ ⟨2026, 1, 8, 12, 0, 0, 456⟩ ∧
    firstValue (RequestIDMiddleware ⟨2026, 1, 8, 12, 0, 0, 123⟩ id requestA).keys "request_id"
      = "req-20260108120000.000000" ∧
    firstValue (RequestIDMiddleware ⟨2026, 1, 8, 12, 0, 0, 456⟩ id requestB).keys "request_id"
      = "req-20260108120000.000000" := by
  refine ⟨by decide, by decide, by decide, by decide, by decide, by decide⟩

/-- C12: the request `GET /bucket1?uploads`, whose query string carries the
parameter `uploads` with no value, is not dispatched to
`ListMultipartUploads`: the one handler invoked is `ListObjects`. -/
theorem handleBucketGet_bare_uploads :
    listUploadsRequest.query.lookup "uploads" = some "" ∧
    handleBucketGet listUploadsRequest = [.ListObjects] := by
  refine ⟨by decide, by decide⟩

/-- C13: for every request, `handleObjectPost` makes exactly one call:
`InitiateMultipartUpload` when the value of `uploads` is non-empty (whatever
`uploadId` is), `CompleteMultipartUpload` when `uploads` is empty and
`uploadId` is non-empty, and otherwise no gateway handler but the abort with
status 400 and the JSON body `error: Invalid POST operation`. -/
theorem handleObjectPost_dispatch (c : Context) :
    (c.Query "uploads" ≠ "" → handleObjectPost c = [.InitiateMultipartUpload]) ∧
    (c.Query "uploads" = "" → c.Query "uploadId" ≠ "" →
      handleObjectPost c = [.CompleteMultipartUpload]) ∧
    (c.Query "uploads" = "" → c.Query "uploadId" = "" →
      handleObjectPost c = [.AbortWithStatusJSON 400 [("error", "Invalid POST operation")]]) := by
  unfold handleObjectPost
  refine ⟨?_, ?_, ?_⟩
  · intro h
    rw [if_pos h]
  · intro h₁ h₂
    rw [if_neg (not_not.mpr h₁), if_pos h₂]
  · intro h₁ h₂
    rw [if_neg (not_not.mpr h₁), if_neg (not_not.mpr h₂)]
    rfl

/-- Witness for C13: `?uploads=1&uploadId=abc` initiates, `?uploadId=abc`
completes, and a POST without either parameter is aborted. -/
theorem handleObjectPost_dispatch_witness :
    handleObjectPost postBothRequest = [.InitiateMultipartUpload] ∧
    handleObjectPost postCompleteRequest = [.CompleteMultipartUpload] ∧
    handleObjectPost postPlainRequest =
      [.AbortWithStatusJSON 400 [("error", "Invalid POST operation")]] :=
  ⟨(handleObjectPost_dispatch postBothRequest).1 (by decide),
   (handleObjectPost_dispatch postCompleteRequest).2.1 (by decide) (by decide),
   (handleObjectPost_dispatch postPlainRequest).2.2 (by decide) (by decide)⟩

end api

/-! ## The loop of the duration parser terminates within its fuel -/

namespace time

/-- The rest that `leadingInt` returns is no longer than its input. -/
theorem leadingInt_go_length (s : List Char) (x v : Nat) (r : List Char)
    (h : leadingInt.go x s = some (v, r)) : r.length ≤ s.length := by
  induction s generalizing x with
  | nil =>
    simp only [leadingInt.go, Option.some.injEq, Prod.mk.injEq] at h
    rw [← h.2]
  | cons c cs ih =>
    simp only [leadingInt.go] at h
    split_ifs at h with h₁ h₂ h₃
    · simp only [Option.some.injEq, Prod.mk.injEq] at h
      rw [← h.2]
    · exact Nat.le_succ_of_le (ih _ h)

/-- The rest that `leadingFraction` returns is no longer than its input. -/
theorem leadingFraction_go_length (s : List Char) (x : Nat) (scale : ℚ) (o : Bool) :
    (leadingFraction.go x scale o s).2.2.length ≤ s.length := by
  induction s generalizing x scale o with
  | nil => simp [leadingFraction.go]
  | cons c cs ih =>
    simp only [leadingFraction.go]
    split_ifs
    · exact le_refl _
    · exact Nat.le_succ_of_le (ih _ _ _)
    · exact Nat.le_succ_of_le (ih _ _ _)
    · exact Nat.le_succ_of_le (ih _ _ _)
    · exact Nat.le_succ_of_le (ih _ _ _)

/-- The rest after the optional fraction is no longer than the input. -/
theorem fractionPart_length (s : List Char) :
    (fractionPart s).2.2.1.length ≤ s.length := by
  unfold fractionPart
  split
  · rename_i t
    exact Nat.le_succ_of_le (leadingFraction_go_length t 0 1 false)
  · exact le_refl _

/-- The two parts of a `span` make up the list. -/
theorem span_length (p : Char → Bool) (s : List Char) :
    (s.span p).1.length + (s.span p).2.length = s.length := by
  rw [List.span_eq_take_drop]
  have h := congrArg List.length (List.takeWhile_append_dropWhile p s)
  rw [List.length_append] at h
  exact h

/-- Every iteration of the loop consumes at least one character. -/
theorem parseGroup_length (s : List Char) (v : Nat) (rest : List Char)
    (h : parseGroup s = some (v, rest)) : rest.length < s.length := by
  unfold parseGroup at h
  split at h
  · cases h
  · rename_i c cs
    split at h
    · cases h
    · split at h
      · cases h
      · rename_i v₀ s₁ hint
        have hs₁ := leadingInt_go_length _ _ _ _ hint
        have hfp := fractionPart_length s₁
        generalize fractionPart s₁ = fp at h hfp
        obtain ⟨f, scale, s₂, post⟩ := fp
        simp only at h hfp
        have hsp := span_length (fun c => !(c = '.' || isDigit c)) s₂
        generalize List.span (fun c => !(c = '.' || isDigit c)) s₂ = sp at h hsp
        obtain ⟨u, s₃⟩ := sp
        simp only at h hsp
        cases u with
        | nil => simp at h
        | cons a as =>
          simp only [List.length_cons] at hsp hs₁
          split_ifs at h
          all_goals
            split at h
            · cases h
            · split_ifs at h
              simp only [Option.some.injEq, Prod.mk.injEq] at h
              rw [← h.2, List.length_cons]
              omega

/-- The result of the loop does not depend on the fuel, once the fuel
exceeds the length of the string. -/
theorem parseGroups_fuel (fuel₁ fuel₂ d : Nat) (s : List Char)
    (h₁ : s.length < fuel₁) (h₂ : s.length < fuel₂) :
    parseGroups fuel₁ d s = parseGroups fuel₂ d s := by
  induction fuel₁ generalizing fuel₂ d s with
  | zero => exact absurd h₁ (Nat.not_lt_zero _)
  | succ n ih =>
    cases fuel₂ with
    | zero => exact absurd h₂ (Nat.not_lt_zero _)
    | succ m =>
      cases s with
      | nil => rfl
      | cons c cs =>
        simp only [parseGroups]
        cases hg : parseGroup (c :: cs) with
        | none => rfl
        | some p =>
          obtain ⟨v, rest⟩ := p
          have hlen := parseGroup_length _ _ _ hg
          simp only
          split_ifs
          · rfl
          · simp only [List.length_cons] at h₁ h₂ hlen
            exact ih m _ rest (by omega) (by omega)

/-- The loop never fails for lack of fuel: with a fuel above the length of
the string it returns the total reached when the string is used up, or the
error of the group at which it stops. -/
theorem parseGroups_step (fuel d : Nat) (s : List Char) (h : s.length < fuel) :
    parseGroups fuel d s =
      match s with
      | [] => some d
      | _ :: _ =>
        match parseGroup s with
        | none => none
        | some (v, rest) =>
          if (d + v) % 2 ^ 64 > 2 ^ 63 then none
          else parseGroups (rest.length + 1) ((d + v) % 2 ^ 64) rest := by
  cases fuel with
  | zero => exact absurd h (Nat.not_lt_zero _)
  | succ n =>
    cases s with
    | nil => rfl
    | cons c cs =>
      simp only [parseGroups]
      cases hg : parseGroup (c :: cs) with
      | none => rfl
      | some p =>
        obtain ⟨v, rest⟩ := p
        have hlen := parseGroup_length _ _ _ hg
        simp only
        split_ifs
        · rfl
        · have hn : rest.length < n := by
            simp only [List.length_cons] at h hlen
            omega
          exact parseGroups_fuel n (rest.length + 1) _ rest hn (Nat.lt_succ_self _)

end time

/-! ## The intervals handed to the tickers -/

namespace repair

/-- The tickers are both created exactly when both intervals are positive,
and then with these intervals. -/
theorem startTickers_eq (ParseDuration : String → Option Duration) (env : Env) :
    startTickers ParseDuration env =
      if 0 < repairInterval ParseDuration env ∧ 0 < scrubInterval ParseDuration env then
        .ok (repairInterval ParseDuration env, scrubInterval ParseDuration env)
      else .error "non-positive interval for NewTicker" := by
  unfold startTickers time.NewTicker
  by_cases hr : repairInterval ParseDuration env ≤ 0
  · have hn : ¬ (0 < repairInterval ParseDuration env ∧ 0 < scrubInterval ParseDuration env) :=
      fun h => absurd h.1 (not_lt.mpr hr)
    rw [if_pos hr, if_neg hn]
  · by_cases hs : scrubInterval ParseDuration env ≤ 0
    · have hn : ¬ (0 < repairInterval ParseDuration env ∧
          0 < scrubInterval ParseDuration env) :=
        fun h => absurd h.2 (not_lt.mpr hs)
      rw [if_neg hr, if_pos hs, if_neg hn]
    · have hp : 0 < repairInterval ParseDuration env ∧ 0 < scrubInterval ParseDuration env :=
        ⟨not_le.mp hr, not_le.mp hs⟩
      rw [if_neg hr, if_neg hs, if_pos hp]

/-- With a positive default, `getEnvDuration` is positive exactly when the
value parsed from a non-empty variable, if there is one, is positive. -/
theorem getEnvDuration_pos_iff (ParseDuration : String → Option Duration) (env : Env)
    (key : String) (defaultValue : Duration) (hd : 0 < defaultValue) :
    0 < getEnvDuration ParseDuration env key defaultValue ↔
      ∀ v d, env key = some v → v ≠ "" → ParseDuration v = some d → 0 < d := by
  rw [getEnvDuration_eq]
  cases hk : env key with
  | none => simp [hd]
  | some v =>
    by_cases hv : v = ""
    · simp only [hv, if_true, hd, true_iff]
      intro w d hw hne
      exact absurd (Option.some.inj hw).symm hne
    · cases hp : ParseDuration v with
      | none =>
        simp only [hv, if_false, hp, Option.getD_none, hd, true_iff]
        intro w d hw _ hpw
        rw [← Option.some.inj hw, hp] at hpw
        cases hpw
      | some d =>
        simp only [hv, if_false, hp, Option.getD_some]
        constructor
        · intro hpos w e hw _ hpw
          rw [← Option.some.inj hw, hp] at hpw
          rw [← Option.some.inj hpw]
          exact hpos
        · intro h
          exact h v d rfl hv hp

/-- C15, as the claim states it, fails: with `REPAIR_INTERVAL=-1s` the
interval handed to the repair ticker is minus one second, and with
`SCRUB_INTERVAL=0` the one handed to the scrub ticker is zero; in both cases
the creation of the ticker panics. -/
theorem ticker_interval_not_positive :
    (repairInterval time.ParseDuration negativeEnv = -1000000000 ∧
      startTickers time.ParseDuration negativeEnv
        = .error "non-positive interval for NewTicker") ∧
    (scrubInterval time.ParseDuration zeroEnv = 0 ∧
      startTickers time.ParseDuration zeroEnv
        = .error "non-positive interval for NewTicker") := by
  refine ⟨⟨by decide, ?_⟩, ⟨by decide, ?_⟩⟩
  · rw [startTickers_eq, if_neg (by decide)]
  · rw [startTickers_eq, if_neg (by decide)]

/-- C15, amended: the interval handed to each ticker is strictly positive
exactly when the value parsed from its variable, if the variable is set to a
non-empty string that parses, is strictly positive (so also when the variable
is unset, empty or does not parse); a parsed value is handed on unchanged;
and both tickers are created, without a panic, exactly when both intervals
are strictly positive. -/
theorem ticker_intervals_positive_iff (ParseDuration : String → Option Duration)
    (env : Env) :
    (0 < repairInterval ParseDuration env ↔
      ∀ v d, env "REPAIR_INTERVAL" = some v → v ≠ "" → ParseDuration v = some d → 0 < d) ∧
    (0 < scrubInterval ParseDuration env ↔
      ∀ v d, env "SCRUB_INTERVAL" = some v → v ≠ "" → ParseDuration v = some d → 0 < d) ∧
    (∀ v d, env "REPAIR_INTERVAL" = some v → v ≠ "" → ParseDuration v = some d →
      repairInterval ParseDuration env = d) ∧
    (∀ v d, env "SCRUB_INTERVAL" = some v → v ≠ "" → ParseDuration v = some d →
      scrubInterval ParseDuration env = d) ∧
    (startTickers ParseDuration env =
        .ok (repairInterval ParseDuration env, scrubInterval ParseDuration env) ↔
      0 < repairInterval ParseDuration env ∧ 0 < scrubInterval ParseDuration env) := by
  refine ⟨?_, ?_, ?_, ?_, ?_⟩
  · exact getEnvDuration_pos_iff ParseDuration env "REPAIR_INTERVAL" (60 * Second) (by decide)
  · exact getEnvDuration_pos_iff ParseDuration env "SCRUB_INTERVAL" (300 * Second) (by decide)
  · intro v d hk hv hp
    simp [repairInterval, getEnvDuration_eq, hk, hv, hp]
  · intro v d hk hv hp
    simp [scrubInterval, getEnvDuration_eq, hk, hv, hp]
  · rw [startTickers_eq]
    split_ifs with h
    · simp [h]
    · simp [h]

/-- Witness for C15, amended: with `REPAIR_INTERVAL=30s` and `SCRUB_INTERVAL`
unset both tickers are created, of 30 and of 300 seconds. -/
theorem ticker_intervals_positive_iff_witness :
    startTickers time.ParseDuration sampleEnv = .ok (30000000000, 300000000000) := by
  have h := (ticker_intervals_positive_iff time.ParseDuration sampleEnv).2.2.2.2.mpr
    (by decide)
  have h₁ : repairInterval time.ParseDuration sampleEnv = 30000000000 := by decide
  have h₂ : scrubInterval time.ParseDuration sampleEnv = 300000000000 := by decide
  rw [h₁, h₂] at h
  exact h

end repair

/-! ## The repair cycle run twice -/

namespace repair

/-- The deficient objects found in a trace add up over its parts. -/
theorem deficientFound_append (a b : List Effect) :
    deficientFound (a ++ b) = deficientFound a + deficientFound b := by
  induction a with
  | nil => simp [deficientFound]
  | cons e t ih =>
    cases e <;> simp [deficientFound, ih, Nat.add_assoc]

/-- The repair of one object issues no query for deficient objects. -/
theorem deficientFound_repairObject (cl : Cluster) (store : metadata.Store)
    (o : metadata.Object) : deficientFound (repairObject cl store o).2 = 0 := by
  unfold repairObject
  simp only
  split
  · rfl
  · split
    · rfl
    · split <;> rfl

/-- Repairing a list of objects in turn adds no query to the trace. -/
theorem deficientFound_foldl (cl : Cluster) (l : List metadata.Object)
    (acc : metadata.Store × List Effect) :
    deficientFound (l.foldl
      (fun acc o => ((repairObject cl acc.1 o).1, acc.2 ++ (repairObject cl acc.1 o).2))
      acc).2 = deficientFound acc.2 := by
  induction l generalizing acc with
  | nil => rfl
  | cons o t ih =>
    rw [List.foldl_cons, ih, deficientFound_append, deficientFound_repairObject]
    rfl

/-- A run of the repair cycle finds exactly the objects that are
under-replicated when it starts. -/
theorem deficientFound_runRepairCycle (cl : Cluster) (store : metadata.Store) :
    deficientFound (runRepairCycle cl store).2 =
      (metadata.FindUnderReplicatedObjects cl.registry store cl.replicationFactor).length := by
  unfold runRepairCycle
  simp only
  rw [deficientFound_foldl]
  simp [deficientFound]

/-- A run that finds no under-replicated object does nothing else. -/
theorem runRepairCycle_of_none (cl : Cluster) (store : metadata.Store)
    (h : metadata.FindUnderReplicatedObjects cl.registry store cl.replicationFactor = []) :
    runRepairCycle cl store = (store, [.findUnderReplicatedObjects cl.replicationFactor []]) := by
  unfold runRepairCycle
  simp only [h, List.foldl_nil, List.map_nil]

/-- When the read, the request for fresh nodes and the write succeed, the
repair of an object gives it the repaired placement. -/
theorem repairObject_of_success (cl : Cluster) (store : metadata.Store) (o : metadata.Object)
    (hread : (cl.read (metadata.liveHolders cl.registry o) (objectKeyOf o)).2.2 = none)
    (hfresh : (freshNodes cl o).2 = none)
    (hwrite : (cl.write ((freshNodes cl o).1.map placement.Node.ID)
      (cl.read (metadata.liveHolders cl.registry o) (objectKeyOf o)).1).2 = none) :
    (repairObject cl store o).1 =
      metadata.UpdateObjectPlacement store o.ID (repairedPlacement cl o) := by
  unfold repairObject
  simp only [hread, hfresh, hwrite]

/-- When every repair succeeds, the metadata store after the repairs is the
result of the placement updates alone. -/
theorem foldl_repairObject_fst (cl : Cluster) (l : List metadata.Object)
    (acc : metadata.Store × List Effect)
    (h : ∀ o ∈ l, ∀ store, (repairObject cl store o).1 =
      metadata.UpdateObjectPlacement store o.ID (repairedPlacement cl o)) :
    (l.foldl
      (fun acc o => ((repairObject cl acc.1 o).1, acc.2 ++ (repairObject cl acc.1 o).2))
      acc).1 =
    l.foldl (fun st o => metadata.UpdateObjectPlacement st o.ID (repairedPlacement cl o))
      acc.1 := by
  induction l generalizing acc with
  | nil => rfl
  | cons o t ih =>
    rw [List.foldl_cons, List.foldl_cons,
      ih _ (fun x hx => h x (List.mem_cons_of_mem _ hx))]
    simp only
    rw [h o (List.mem_cons_self _ _)]

/-- A sequence of placement updates acts on each record of the store
separately. -/
theorem foldl_update_eq_map (rp : metadata.Object → List String) (l : List metadata.Object)
    (store : metadata.Store) :
    l.foldl (fun st o => metadata.UpdateObjectPlacement st o.ID (rp o)) store =
      store.map fun x =>
        l.foldl (fun y o => if y.ID = o.ID then { y with Placement := rp o } else y) x := by
  induction l generalizing store with
  | nil => simp
  | cons o t ih =>
    rw [List.foldl_cons, ih]
    simp only [metadata.UpdateObjectPlacement, List.map_map, List.foldl_cons]
    rfl

/-- The updates of other identifiers leave a record as it is. -/
theorem foldl_upd_of_not_mem (rp : metadata.Object → List String) (l : List metadata.Object)
    (y : metadata.Object) (h : y.ID ∉ l.map metadata.Object.ID) :
    l.foldl (fun y o => if y.ID = o.ID then { y with Placement := rp o } else y) y = y := by
  induction l generalizing y with
  | nil => rfl
  | cons o t ih =>
    simp only [List.map_cons, List.mem_cons, not_or] at h
    rw [List.foldl_cons, if_neg h.1]
    exact ih y h.2

/-- Among updates of distinct identifiers, the one of a record's own
identifier decides its placement. -/
theorem foldl_upd_of_mem (rp : metadata.Object → List String) (l : List metadata.Object)
    (x : metadata.Object) (hnd : (l.map metadata.Object.ID).Nodup) (hx : x ∈ l) :
    l.foldl (fun y o => if y.ID = o.ID then { y with Placement := rp o } else y) x =
      { x with Placement := rp x } := by
  induction l with
  | nil => cases hx
  | cons o t ih =>
    simp only [List.map_cons, List.nodup_cons] at hnd
    rw [List.foldl_cons]
    by_cases hox : x = o
    · subst hox
      rw [if_pos rfl]
      exact foldl_upd_of_not_mem rp t _ hnd.1
    · have hxt : x ∈ t := (List.mem_cons.mp hx).resolve_left hox
      have hne : ¬ x.ID = o.ID := by
        intro heq
        exact hnd.1 (heq ▸ List.mem_map_of_mem _ hxt)
      rw [if_neg hne]
      exact ih hnd.2 hxt

/-- An object repaired onto enough fresh healthy nodes has as many live
replicas as the replication factor asks for. -/
theorem liveCount_repaired (cl : Cluster) (o : metadata.Object)
    (hdef : (metadata.liveCount cl.registry o : Int) < cl.replicationFactor)
    (hfresh : deficit cl o ≤ ((cl.registry.excluding o.Placement).healthy.length : Int)) :
    (freshNodes cl o).2 = none ∧
    (metadata.liveCount cl.registry { o with Placement := repairedPlacement cl o } : Int)
      = cl.replicationFactor := by
  have h0 : 0 ≤ deficit cl o := by
    unfold deficit
    omega
  have hel : deficit cl o ≤ ((cl.registry.excluding o.Placement).eligible.length : Int) := by
    rw [placement.length_eligible]
    push_cast
    omega
  obtain ⟨hs, _, hh⟩ := placement.getNodes_spec cl.score (cl.registry.excluding o.Placement)
    (objectKeyOf o) (deficit cl o)
  obtain ⟨herr, hlen, _, hmem⟩ := hs h0 hel
  have hhealthy := hh h0 hfresh
  refine ⟨herr, ?_⟩
  have hall : ∀ id ∈ (freshNodes cl o).1.map placement.Node.ID,
      id ∈ cl.registry.healthy.map placement.Node.ID := by
    intro id hid
    obtain ⟨n, hn, rfl⟩ := List.mem_map.mp hid
    have hn₁ := (hmem n hn).1
    have hn₂ := hhealthy n hn
    simp only [placement.Registry.excluding, List.mem_filter] at hn₁
    exact List.mem_map_of_mem _
      (by simp only [placement.Registry.healthy, List.mem_filter, decide_eq_true_eq]
          exact ⟨hn₁.1, hn₂⟩)
  have hfilter : ((freshNodes cl o).1.map placement.Node.ID).filter
      (fun id => id ∈ cl.registry.healthy.map placement.Node.ID) =
      (freshNodes cl o).1.map placement.Node.ID :=
    List.filter_eq_self.mpr (fun id hid => by simpa using hall id hid)
  have hlen' : (((freshNodes cl o).1.map placement.Node.ID).length : Int) = deficit cl o := by
    rw [List.length_map]
    exact hlen
  simp only [metadata.liveCount, metadata.liveHolders, repairedPlacement, List.filter_append,
    List.length_append, hfilter]
  have hd : deficit cl o = cl.replicationFactor - metadata.liveCount cl.registry o := rfl
  simp only [metadata.liveCount, metadata.liveHolders] at hd
  push_cast
  omega

/-- When the object identifiers are unique and, for every under-replicated
object, the read and the write succeed and enough fresh healthy nodes exist,
a run of the repair cycle leaves no object under-replicated. -/
theorem runRepairCycle_repairs_all (cl : Cluster) (store : metadata.Store)
    (hid : (store.map metadata.Object.ID).Nodup)
    (hread : ∀ o ∈ metadata.FindUnderReplicatedObjects cl.registry store cl.replicationFactor,
      (cl.read (metadata.liveHolders cl.registry o) (objectKeyOf o)).2.2 = none)
    (hwrite : ∀ o ∈ metadata.FindUnderReplicatedObjects cl.registry store cl.replicationFactor,
      (cl.write ((freshNodes cl o).1.map placement.Node.ID)
        (cl.read (metadata.liveHolders cl.registry o) (objectKeyOf o)).1).2 = none)
    (hfresh : ∀ o ∈ metadata.FindUnderReplicatedObjects cl.registry store cl.replicationFactor,
      deficit cl o ≤ ((cl.registry.excluding o.Placement).healthy.length : Int)) :
    metadata.FindUnderReplicatedObjects cl.registry (runRepairCycle cl store).1
      cl.replicationFactor = [] := by
  have hfound : ∀ o ∈ metadata.FindUnderReplicatedObjects cl.registry store
      cl.replicationFactor,
      o ∈ store ∧ (metadata.liveCount cl.registry o : Int) < cl.replicationFactor := by
    intro o ho
    simpa [metadata.FindUnderReplicatedObjects] using ho
  have hstep : ∀ o ∈ metadata.FindUnderReplicatedObjects cl.registry store
      cl.replicationFactor, ∀ st, (repairObject cl st o).1 =
      metadata.UpdateObjectPlacement st o.ID (repairedPlacement cl o) := by
    intro o ho st
    exact repairObject_of_success cl st o (hread o ho)
      (liveCount_repaired cl o (hfound o ho).2 (hfresh o ho)).1 (hwrite o ho)
  have hfnd : ((metadata.FindUnderReplicatedObjects cl.registry store
      cl.replicationFactor).map metadata.Object.ID).Nodup :=
    List.Nodup.sublist ((List.filter_sublist _).map _) hid
  have hrun : (runRepairCycle cl store).1 = store.map fun x =>
      (metadata.FindUnderReplicatedObjects cl.registry store cl.replicationFactor).foldl
        (fun y o => if y.ID = o.ID then { y with Placement := repairedPlacement cl o } else y)
        x := by
    unfold runRepairCycle
    simp only
    rw [foldl_repairObject_fst cl _ _ hstep, foldl_update_eq_map]
  rw [hrun, metadata.FindUnderReplicatedObjects, List.filter_eq_nil_iff]
  intro x' hx'
  obtain ⟨x, hx, rfl⟩ := List.mem_map.mp hx'
  simp only [decide_eq_true_eq, not_lt]
  by_cases hxf : x ∈ metadata.FindUnderReplicatedObjects cl.registry store
      cl.replicationFactor
  · rw [foldl_upd_of_mem _ _ x hfnd hxf,
      (liveCount_repaired cl x (hfound x hxf).2 (hfresh x hxf)).2]
  · have hnot : x.ID ∉ (metadata.FindUnderReplicatedObjects cl.registry store
        cl.replicationFactor).map metadata.Object.ID := by
      intro hmem
      obtain ⟨o, ho, hoid⟩ := List.mem_map.mp hmem
      have hox : o = x := List.inj_on_of_nodup_map hid (hfound o ho).1 hx hoid
      exact hxf (hox ▸ ho)
    rw [foldl_upd_of_not_mem _ _ x hnot]
    have hnd : ¬ (metadata.liveCount cl.registry x : Int) < cl.replicationFactor := by
      intro hlt
      exact hxf (by simpa [metadata.FindUnderReplicatedObjects] using ⟨hx, hlt⟩)
    exact not_lt.mp hnd

/-- C8, as the claim states it, fails. With the replication factor 3 and
only two healthy nodes, both holding the object already, the first run finds
the object under-replicated and cannot repair it for lack of a fresh node;
nothing changes, and the second run finds it again: one deficient object,
not zero. -/
theorem repair_second_run_finds_again :
    runRepairCycle (reliableCluster placement.twoHealthyRegistry)
        [metadata.sampleObject ["n1", "n2"]] =
      ([metadata.sampleObject ["n1", "n2"]], [.findUnderReplicatedObjects 3 ["o1"]]) ∧
    deficientFound (runRepairCycle (reliableCluster placement.twoHealthyRegistry)
      (runRepairCycle (reliableCluster placement.twoHealthyRegistry)
        [metadata.sampleObject ["n1", "n2"]]).1).2 = 1 := by
  refine ⟨by decide, by decide⟩

/-- C8, amended: of two runs of the repair cycle with no change to the node
registry or the metadata store in between, the second finds exactly the
objects that are still under-replicated after the first. When the first run
left none, the second is a no-op: it finds zero deficient objects, performs
zero writes and leaves the metadata as it is. The first run leaves none when
the object identifiers are unique and, for every object it finds, the read
and the write succeed and enough fresh healthy nodes exist. -/
theorem repair_second_run_noop (cl : Cluster) (store : metadata.Store) :
    (deficientFound (runRepairCycle cl (runRepairCycle cl store).1).2 =
      (metadata.FindUnderReplicatedObjects cl.registry (runRepairCycle cl store).1
        cl.replicationFactor).length) ∧
    (metadata.FindUnderReplicatedObjects cl.registry (runRepairCycle cl store).1
        cl.replicationFactor = [] →
      (runRepairCycle cl (runRepairCycle cl store).1).1 = (runRepairCycle cl store).1 ∧
      deficientFound (runRepairCycle cl (runRepairCycle cl store).1).2 = 0 ∧
      writes (runRepairCycle cl (runRepairCycle cl store).1).2 = 0) ∧
    ((store.map metadata.Object.ID).Nodup →
      (∀ o ∈ metadata.FindUnderReplicatedObjects cl.registry store cl.replicationFactor,
        (cl.read (metadata.liveHolders cl.registry o) (objectKeyOf o)).2.2 = none ∧
        (cl.write ((freshNodes cl o).1.map placement.Node.ID)
          (cl.read (metadata.liveHolders cl.registry o) (objectKeyOf o)).1).2 = none ∧
        deficit cl o ≤ ((cl.registry.excluding o.Placement).healthy.length : Int)) →
      metadata.FindUnderReplicatedObjects cl.registry (runRepairCycle cl store).1
        cl.replicationFactor = []) := by
  refine ⟨deficientFound_runRepairCycle cl _, ?_, ?_⟩
  · intro h
    rw [runRepairCycle_of_none cl _ h]
    exact ⟨rfl, rfl, rfl⟩
  · intro hid h
    exact runRepairCycle_repairs_all cl store hid (fun o ho => (h o ho).1)
      (fun o ho => (h o ho).2.1) (fun o ho => (h o ho).2.2)

/-- Witness for C8, amended: the spec's scenario. With three healthy nodes
and the object on `n1` and `n2` only, the first run finds it, writes it to
`n3` and updates the placement; the second run finds nothing and writes
nothing. -/
theorem repair_second_run_noop_witness :
    runRepairCycle (reliableCluster placement.healthyRegistry)
        [metadata.sampleObject ["n1", "n2"]] =
      ([metadata.sampleObject ["n1", "n2", "n3"]],
        [.findUnderReplicatedObjects 3 ["o1"], .write ["n3"] [100, 97, 116, 97, 49],
          .updateObjectPlacement "o1" ["n1", "n2", "n3"]]) ∧
    (runRepairCycle (reliableCluster placement.healthyRegistry)
        (runRepairCycle (reliableCluster placement.healthyRegistry)
          [metadata.sampleObject ["n1", "n2"]]).1).1 =
      [metadata.sampleObject ["n1", "n2", "n3"]] ∧
    deficientFound (runRepairCycle (reliableCluster placement.healthyRegistry)
      (runRepairCycle (reliableCluster placement.healthyRegistry)
        [metadata.sampleObject ["n1", "n2"]]).1).2 = 0 ∧
    writes (runRepairCycle (reliableCluster placement.healthyRegistry)
      (runRepairCycle (reliableCluster placement.healthyRegistry)
        [metadata.sampleObject ["n1", "n2"]]).1).2 = 0 :=
  have h₁ : runRepairCycle (reliableCluster placement.healthyRegistry)
      [metadata.sampleObject ["n1", "n2"]] =
      ([metadata.sampleObject ["n1", "n2", "n3"]],
        [.findUnderReplicatedObjects 3 ["o1"], .write ["n3"] [100, 97, 116, 97, 49],
          .updateObjectPlacement "o1" ["n1", "n2", "n3"]]) := by decide
  have w := (repair_second_run_noop (reliableCluster placement.healthyRegistry)
    [metadata.sampleObject ["n1", "n2"]]).2.1 (by decide)
  ⟨h₁, h₁ ▸ w.1, w.2.1, w.2.2⟩

end repair

end Plinth
